import Mathlib

/-!
# Verification of the agent-memory filesystem store

A shallow embedding of the persistent store of the `agent-memory`
repository (Go): identifier normalization (`internal/domain/task/entity.go`),
the filesystem repository (`internal/infrastructure/storage/filesystem/repository.go`)
with its pagination helper, artifact encoding/decoding, task-directory
resolution and cross-entity search, together with proofs of the spec's
testable properties.

Modelling conventions:
* Go strings are lists of runes (`List Char`); rune comparisons are done on
  code points, mirroring the Go source.  `strings.ToLower` and
  `unicode.IsSpace` are modelled on their ASCII/Latin-1 fragment.
* `time.Time` values are Unix-second counts (`Int`), which is the precision
  the store persists (artifact filenames) and compares (sorting).
* `project.json` / `task.json` contents are modelled as the parsed record
  (JSON (de)serialization is assumed to round-trip).
* Filesystem failures (rename, write) are injected as explicit `Bool`
  outcome flags on the operations that the claims quantify over.
-/

namespace AgentMemory

/-- Go strings, modelled as lists of runes. -/
abbrev Str := List Char

/-- Embed a Lean string literal into the model. -/
def str (s : String) : Str := s.data

/-! ## Character classes (entity.go) -/

/-- The character class `[a-z0-9-]` of the normalization regexps
(`entity.go`).  Comparisons are on code points, as in Go. -/
def isAllowedSlugChar (c : Char) : Bool :=
  (97 ≤ c.toNat && c.toNat ≤ 122) || (48 ≤ c.toNat && c.toNat ≤ 57) || c.toNat = 45

/-- The character class `[a-z0-9]` used by `IsValid` (`entity.go`). -/
def isAlnumLower (c : Char) : Bool :=
  (97 ≤ c.toNat && c.toNat ≤ 122) || (48 ≤ c.toNat && c.toNat ≤ 57)

/-- The character class `[a-z_]` of the kanban directory-name pattern
(`repository.go`, `findTaskDir`). -/
def isStatusChar (c : Char) : Bool :=
  (97 ≤ c.toNat && c.toNat ≤ 122) || c.toNat = 95

/-- ASCII/Latin-1 fragment of `unicode.IsSpace`, used by `strings.TrimSpace`. -/
def isSpaceChar (c : Char) : Bool :=
  c.toNat = 32 || (9 ≤ c.toNat && c.toNat ≤ 13) || c.toNat = 133 || c.toNat = 160

/-- ASCII fragment of Go `strings.ToLower`, one rune. -/
def toLowerChar (c : Char) : Char :=
  if 65 ≤ c.toNat && c.toNat ≤ 90 then Char.ofNat (c.toNat + 32) else c

/-- Go `strings.ToLower`. -/
def toLowerStr (s : Str) : Str := s.map toLowerChar

/-! ## Generic string helpers (strings package) -/

/-- Go `strings.Trim` with a one-character cut set, generalized to a
predicate; `strings.TrimSpace` is `trimChar isSpaceChar`. -/
def trimChar (p : Char → Bool) (s : Str) : Str :=
  (((s.dropWhile p).reverse).dropWhile p).reverse

/-- Go `strings.TrimSpace` (ASCII fragment of `unicode.IsSpace`). -/
def trimSpace (s : Str) : Str := trimChar isSpaceChar s

/-- `regexp.MustCompile("-+").ReplaceAllString(s, "-")`: collapse each
maximal run of dashes to a single dash (a dash is dropped when the
collapsed tail already starts with one). -/
def collapseDashes : Str → Str
  | [] => []
  | c :: rest =>
    if c = '-' then
      if (collapseDashes rest).head? = some '-' then collapseDashes rest
      else '-' :: collapseDashes rest
    else c :: collapseDashes rest

/-! ## Identifier normalization (entity.go) -/

/-- The normalization pipeline shared by `NewProjectID` and `NewTaskID`
(`entity.go`): lowercase the trimmed input, replace every character
outside `[a-z0-9-]` by `-`, collapse dash runs, trim dashes. -/
def normalizeSlug (s : Str) : Str :=
  trimChar (fun c => c = '-')
    (collapseDashes
      ((toLowerStr (trimSpace s)).map
        (fun c => if isAllowedSlugChar c then c else '-')))

/-- Project identifiers (slug strings). -/
abbrev ProjectID := Str

/-- Task identifiers (slug strings). -/
abbrev TaskID := Str

/-- `NewProjectID` (`entity.go` lines 14-21). -/
def NewProjectID (id : Str) : ProjectID := normalizeSlug id

/-- `NewTaskID` (`entity.go` lines 64-71). -/
def NewTaskID (id : Str) : TaskID := normalizeSlug id

/-- The validity regexp `^[a-z0-9][a-z0-9-]*[a-z0-9]$|^[a-z0-9]$`, tail
part: at least one more character, interior in `[a-z0-9-]`, final in
`[a-z0-9]`. -/
def slugTailOk : Str → Bool
  | [] => false
  | [d] => isAlnumLower d
  | d :: rest => isAllowedSlugChar d && slugTailOk rest

/-- The validity predicate shared by `ProjectID.IsValid` and
`TaskID.IsValid` (`entity.go`): nonempty and matching
`^[a-z0-9][a-z0-9-]*[a-z0-9]$|^[a-z0-9]$`. -/
def isValidSlug : Str → Bool
  | [] => false
  | [c] => isAlnumLower c
  | c :: rest => isAlnumLower c && slugTailOk rest

/-- `ProjectID.IsValid` (`entity.go` lines 28-35). -/
def ProjectID.IsValid (p : ProjectID) : Bool := isValidSlug p

/-- `TaskID.IsValid` (`entity.go` lines 78-85). -/
def TaskID.IsValid (t : TaskID) : Bool := isValidSlug t

/-! ## Normal forms of the slug pipeline -/

/-- Adjacent characters of a collapsed slug are never both dashes. -/
def DashOk (a b : Char) : Prop := ¬(a = '-' ∧ b = '-')

lemma char_eq_of_toNat_eq {c d : Char} (h : c.toNat = d.toNat) : c = d :=
  Char.eq_of_val_eq (UInt32.toNat.inj h)

lemma eq_dash_of_toNat {c : Char} (h : c.toNat = 45) : c = '-' :=
  Char.eq_of_val_eq (UInt32.toNat.inj (by simpa using h))

lemma allowed_not_space {c : Char} (h : isAllowedSlugChar c = true) :
    isSpaceChar c = false := by
  simp only [isAllowedSlugChar, Bool.or_eq_true, Bool.and_eq_true, decide_eq_true_eq] at h
  simp only [isSpaceChar, Bool.or_eq_false_iff, Bool.and_eq_false_iff,
    decide_eq_false_iff_not]
  omega

lemma toLowerChar_eq_self {c : Char} (h : isAllowedSlugChar c = true) :
    toLowerChar c = c := by
  simp only [isAllowedSlugChar, Bool.or_eq_true, Bool.and_eq_true, decide_eq_true_eq] at h
  unfold toLowerChar
  split
  · next hcond =>
    exfalso
    simp only [Bool.and_eq_true, decide_eq_true_eq] at hcond
    omega
  · rfl

lemma allowed_ne_dash_alnum {c : Char} (h : isAllowedSlugChar c = true)
    (hd : c ≠ '-') : isAlnumLower c = true := by
  simp only [isAllowedSlugChar, Bool.or_eq_true, Bool.and_eq_true, decide_eq_true_eq] at h
  simp only [isAlnumLower, Bool.or_eq_true, Bool.and_eq_true, decide_eq_true_eq]
  rcases h with (h | h) | h
  · exact Or.inl h
  · exact Or.inr h
  · exact absurd (eq_dash_of_toNat h) hd

lemma head?_dropWhile_false {p : Char → Bool} {l : Str} {c : Char}
    (h : (l.dropWhile p).head? = some c) : p c = false := by
  have H := List.head?_dropWhile_not p l
  rw [h] at H
  exact H

lemma collapseDashes_subset (l : Str) : collapseDashes l ⊆ l := by
  induction l with
  | nil => simp [collapseDashes]
  | cons c rest ih =>
    by_cases hc : c = '-'
    · subst hc
      rw [collapseDashes, if_pos rfl]
      by_cases hh : (collapseDashes rest).head? = some '-'
      · rw [if_pos hh]
        exact fun x hx => List.mem_cons_of_mem _ (ih hx)
      · rw [if_neg hh]
        intro x hx
        rcases List.mem_cons.mp hx with h | h
        · simp [h]
        · exact List.mem_cons_of_mem _ (ih h)
    · rw [collapseDashes, if_neg hc]
      intro x hx
      rcases List.mem_cons.mp hx with h | h
      · simp [h]
      · exact List.mem_cons_of_mem _ (ih h)

lemma head?_collapseDashes (l : Str) : (collapseDashes l).head? = l.head? := by
  cases l with
  | nil => simp [collapseDashes]
  | cons c rest =>
    by_cases hc : c = '-'
    · subst hc
      rw [collapseDashes, if_pos rfl]
      by_cases hh : (collapseDashes rest).head? = some '-'
      · rw [if_pos hh, hh]
        rfl
      · rw [if_neg hh]
        simp
    · rw [collapseDashes, if_neg hc]
      simp

lemma chain'_collapseDashes (l : Str) : List.Chain' DashOk (collapseDashes l) := by
  induction l with
  | nil => simp [collapseDashes]
  | cons c rest ih =>
    by_cases hc : c = '-'
    · subst hc
      rw [collapseDashes, if_pos rfl]
      by_cases hh : (collapseDashes rest).head? = some '-'
      · rw [if_pos hh]
        exact ih
      · rw [if_neg hh]
        rw [List.chain'_cons']
        refine ⟨?_, ih⟩
        intro y hy
        intro hcon
        exact hh (by rw [hy, hcon.2])
    · rw [collapseDashes, if_neg hc]
      rw [List.chain'_cons']
      refine ⟨?_, ih⟩
      intro y _
      exact fun hcon => hc hcon.1

lemma collapseDashes_eq_self {l : Str} (h : List.Chain' DashOk l) :
    collapseDashes l = l := by
  induction l with
  | nil => simp [collapseDashes]
  | cons c rest ih =>
    have htail : List.Chain' DashOk rest := (List.chain'_cons'.mp h).2
    by_cases hc : c = '-'
    · subst hc
      rw [collapseDashes, if_pos rfl]
      have hh : (collapseDashes rest).head? ≠ some '-' := by
        rw [ih htail]
        cases rest with
        | nil => simp
        | cons d t =>
          have hdok : DashOk '-' d := (List.chain'_cons'.mp h).1 d rfl
          have hd : d ≠ '-' := fun hcon => hdok ⟨rfl, hcon⟩
          simpa using hd
      rw [if_neg hh, ih htail]
    · rw [collapseDashes, if_neg hc]
      rw [ih htail]

lemma trimChar_infixOf (p : Char → Bool) (l : Str) : trimChar p l <:+: l := by
  obtain ⟨t, ht⟩ := List.dropWhile_suffix (l := l) p
  obtain ⟨u, hu⟩ := List.dropWhile_suffix (l := (List.dropWhile p l).reverse) p
  refine ⟨t, u.reverse, ?_⟩
  have hrv : List.dropWhile p l =
      (List.dropWhile p (List.dropWhile p l).reverse).reverse ++ u.reverse := by
    have h2 := congrArg List.reverse hu
    simp only [List.reverse_append, List.reverse_reverse] at h2
    exact h2.symm
  rw [trimChar, List.append_assoc, ← hrv, ht]

lemma trimChar_head? {p : Char → Bool} {l : Str} {c : Char}
    (h : (trimChar p l).head? = some c) : p c = false := by
  rw [trimChar, List.head?_reverse] at h
  rcases hB : List.dropWhile p (List.dropWhile p l).reverse with _ | ⟨b, B'⟩
  · rw [hB] at h; simp at h
  · have hsuf := List.dropWhile_suffix (l := (List.dropWhile p l).reverse) p
    rw [hB] at hsuf h
    obtain ⟨u, hu⟩ := hsuf
    have : (b :: B').getLast? = (List.dropWhile p l).reverse.getLast? := by
      rw [← hu, List.getLast?_append]
      cases hgl : (b :: B').getLast? with
      | none => simp at hgl
      | some x => simp
    rw [this, List.getLast?_reverse] at h
    exact head?_dropWhile_false h

lemma trimChar_getLast? {p : Char → Bool} {l : Str} {c : Char}
    (h : (trimChar p l).getLast? = some c) : p c = false := by
  rw [trimChar, List.getLast?_reverse] at h
  exact head?_dropWhile_false h

lemma dropWhile_eq_self_of_head {p : Char → Bool} {l : Str}
    (h : ∀ c, l.head? = some c → p c = false) : l.dropWhile p = l := by
  cases l with
  | nil => rfl
  | cons c rest =>
    have := h c rfl
    simp [List.dropWhile_cons, this]

lemma trimChar_eq_self {p : Char → Bool} {l : Str}
    (h1 : ∀ c, l.head? = some c → p c = false)
    (h2 : ∀ c, l.getLast? = some c → p c = false) : trimChar p l = l := by
  rw [trimChar, dropWhile_eq_self_of_head h1]
  rw [dropWhile_eq_self_of_head (fun c hc => h2 c (by rwa [List.head?_reverse] at hc))]
  exact List.reverse_reverse l

/-- The replacement step of the pipeline. -/
def replaceDisallowed (s : Str) : Str :=
  s.map (fun c => if isAllowedSlugChar c then c else '-')

lemma map_eq_self_of {f : Char → Char} {l : Str} (h : ∀ c ∈ l, f c = c) :
    l.map f = l := by
  induction l with
  | nil => rfl
  | cons c rest ih =>
    simp only [List.map_cons, h c (by simp)]
    rw [ih (fun x hx => h x (List.mem_cons_of_mem _ hx))]

lemma mem_replaceDisallowed {c : Char} {s : Str} (h : c ∈ replaceDisallowed s) :
    isAllowedSlugChar c = true := by
  rcases List.mem_map.mp h with ⟨d, _, hd⟩
  rw [← hd]
  by_cases hall : isAllowedSlugChar d
  · rw [if_pos hall]; exact hall
  · rw [if_neg hall]; decide

/-- What the normalization pipeline guarantees about its output. -/
def IsNormalForm (s : Str) : Prop :=
  (∀ c ∈ s, isAllowedSlugChar c = true) ∧ List.Chain' DashOk s ∧
  (∀ c, s.head? = some c → c ≠ '-') ∧ (∀ c, s.getLast? = some c → c ≠ '-')

lemma normalizeSlug_eq (s : Str) :
    normalizeSlug s =
      trimChar (fun c => c = '-')
        (collapseDashes (replaceDisallowed (toLowerStr (trimSpace s)))) := rfl

lemma normalizeSlug_isNormalForm (s : Str) : IsNormalForm (normalizeSlug s) := by
  rw [normalizeSlug_eq]
  set m := replaceDisallowed (toLowerStr (trimSpace s)) with hm
  refine ⟨?_, ?_, ?_, ?_⟩
  · intro c hc
    have h1 := (trimChar_infixOf (fun c => c = '-') (collapseDashes m)).subset hc
    exact mem_replaceDisallowed (collapseDashes_subset m h1)
  · exact List.Chain'.infix (chain'_collapseDashes m) (trimChar_infixOf _ _)
  · intro c hc
    have := trimChar_head? hc
    simpa using this
  · intro c hc
    have := trimChar_getLast? hc
    simpa using this

lemma normalizeSlug_of_isNormalForm {s : Str} (h : IsNormalForm s) :
    normalizeSlug s = s := by
  obtain ⟨hall, hchain, hhead, hlast⟩ := h
  have hts : trimSpace s = s := by
    refine trimChar_eq_self ?_ ?_
    · intro c hc
      exact allowed_not_space (hall c (List.mem_of_mem_head? (by simp [hc])))
    · intro c hc
      have hmem : c ∈ s := by
        have : c ∈ s.getLast? := by simp [hc]
        exact List.mem_of_mem_getLast? this
      exact allowed_not_space (hall c hmem)
  have htl : toLowerStr s = s := by
    rw [toLowerStr]
    exact map_eq_self_of (fun c hc => toLowerChar_eq_self (hall c hc))
  have hrepl : replaceDisallowed s = s := by
    rw [replaceDisallowed]
    exact map_eq_self_of (fun c hc => by rw [if_pos (hall c hc)])
  have hcol : collapseDashes s = s := collapseDashes_eq_self hchain
  rw [normalizeSlug_eq, hts, htl, hrepl, hcol]
  refine trimChar_eq_self ?_ ?_
  · intro c hc
    simpa using hhead c hc
  · intro c hc
    simpa using hlast c hc

lemma normalizeSlug_idem (s : Str) :
    normalizeSlug (normalizeSlug s) = normalizeSlug s :=
  normalizeSlug_of_isNormalForm (normalizeSlug_isNormalForm s)

lemma slugTailOk_of {l : Str} (hne : l ≠ [])
    (hall : ∀ c ∈ l, isAllowedSlugChar c = true)
    (hlast : ∀ c, l.getLast? = some c → c ≠ '-') : slugTailOk l = true := by
  induction l with
  | nil => exact absurd rfl hne
  | cons d t ih =>
    cases t with
    | nil =>
      simp only [slugTailOk]
      exact allowed_ne_dash_alnum (hall d (by simp)) (hlast d rfl)
    | cons e u =>
      simp only [slugTailOk, Bool.and_eq_true]
      refine ⟨hall d (by simp), ?_⟩
      refine ih (by simp) (fun c hc => hall c (List.mem_cons_of_mem _ hc)) ?_
      intro c hc
      exact hlast c (by rw [List.getLast?_cons_cons]; exact hc)

lemma isValidSlug_of_normalForm {s : Str} (h : IsNormalForm s) (hne : s ≠ []) :
    isValidSlug s = true := by
  obtain ⟨hall, _, hhead, hlast⟩ := h
  cases s with
  | nil => exact absurd rfl hne
  | cons c rest =>
    have hc : isAlnumLower c = true :=
      allowed_ne_dash_alnum (hall c (by simp)) (hhead c rfl)
    cases rest with
    | nil => simpa [isValidSlug] using hc
    | cons d t =>
      simp only [isValidSlug, Bool.and_eq_true]
      refine ⟨hc, ?_⟩
      refine slugTailOk_of (by simp) (fun x hx => hall x (List.mem_cons_of_mem _ hx)) ?_
      intro x hx
      exact hlast x (by rw [List.getLast?_cons_cons]; exact hx)

/-! ## Claim theorems: normalization -/

/-- C7: Idempotent normalization — for every input string `s`,
`NewProjectID (NewProjectID s) = NewProjectID s` and
`NewTaskID (NewTaskID s) = NewTaskID s` (`.String()` on an ID is the
identity in the model, as in the source). -/
theorem C7_normalization_idempotent (s : Str) :
    NewProjectID (NewProjectID s) = NewProjectID s ∧
      NewTaskID (NewTaskID s) = NewTaskID s :=
  ⟨normalizeSlug_idem s, normalizeSlug_idem s⟩

/-- C10: Normalization output is always empty or valid — `NewProjectID s`
(and likewise `NewTaskID s`) is either the empty string or a slug accepted
by `IsValid`. -/
theorem C10_normalize_empty_or_valid (s : Str) :
    (NewProjectID s = [] ∨ (NewProjectID s).IsValid = true) ∧
      (NewTaskID s = [] ∨ (NewTaskID s).IsValid = true) := by
  constructor
  · by_cases h : NewProjectID s = []
    · exact Or.inl h
    · exact Or.inr (isValidSlug_of_normalForm (normalizeSlug_isNormalForm s) h)
  · by_cases h : NewTaskID s = []
    · exact Or.inl h
    · exact Or.inr (isValidSlug_of_normalForm (normalizeSlug_isNormalForm s) h)

/-! ## Pagination (repository.go, applyPagination; domain/task/repository.go) -/

/-- `task.ListOptions` (`domain/task/repository.go`).  Go `int` fields are
modelled as `Int`; `Status` is a string (empty means no filter). -/
structure ListOptions where
  limit : Int
  offset : Int
  status : Str
deriving DecidableEq

/-- The `ListOptions` zero value with `Limit: 0` that the internal
full-scan call sites pass (`task.ListOptions{Limit: 0}`). -/
def internalScanOpts : ListOptions := ⟨0, 0, []⟩

/-- `task.ListResult` (`domain/task/repository.go`). -/
structure ListResult (α : Type) where
  items : List α
  total : Int
  limit : Int
  offset : Int
  hasMore : Bool
deriving DecidableEq

/-- `applyPagination` (`repository.go` lines 661-701). -/
def applyPagination {α : Type} (items : List α) (opts : ListOptions) :
    ListResult α :=
  let total : Int := items.length
  let limit : Int := if opts.limit ≤ 0 then 50 else opts.limit
  let offset : Int := if opts.offset < 0 then 0 else opts.offset
  if total ≤ offset then
    { items := [], total := total, limit := limit, offset := offset,
      hasMore := false }
  else
    let items2 := items.drop offset.toNat
    let hasMore : Bool := limit < (items2.length : Int)
    let items3 := if hasMore then items2.take limit.toNat else items2
    { items := items3, total := total, limit := limit, offset := offset,
      hasMore := hasMore }

/-- C2: Pagination windowing, fully characterized: `total` is the input
length, the recorded offset is the non-negative clamp, the recorded limit
substitutes 50 for a non-positive limit, the item window is empty when the
clamped offset reaches the total and otherwise is `take limit` of
`drop offset`, `hasMore` holds exactly when the window stops short of the
total, and the window never extends past the total unless it is empty. -/
theorem C2_pagination_window {α : Type} (l : List α) (opts : ListOptions) :
    (applyPagination l opts).total = l.length ∧
    (applyPagination l opts).offset =
      (if opts.offset < 0 then 0 else opts.offset) ∧
    (applyPagination l opts).limit =
      (if opts.limit ≤ 0 then 50 else opts.limit) ∧
    (applyPagination l opts).items =
      (if (l.length : Int) ≤ (if opts.offset < 0 then 0 else opts.offset)
        then ([] : List α)
        else (l.drop (if opts.offset < 0 then 0 else opts.offset).toNat).take
          (if opts.limit ≤ 0 then 50 else opts.limit).toNat) ∧
    ((applyPagination l opts).hasMore = true ↔
      (if opts.offset < 0 then 0 else opts.offset) +
        ((applyPagination l opts).items.length : Int) < (l.length : Int)) ∧
    ((if opts.offset < 0 then 0 else opts.offset) +
        ((applyPagination l opts).items.length : Int) ≤ (l.length : Int) ∨
      (applyPagination l opts).items = []) := by
  unfold applyPagination
  set off : Int := if opts.offset < 0 then 0 else opts.offset with hoff
  set lim : Int := if opts.limit ≤ 0 then 50 else opts.limit with hlim
  have hoff0 : 0 ≤ off := by
    rw [hoff]; split <;> omega
  have hlim1 : 1 ≤ lim := by
    rw [hlim]; split <;> omega
  by_cases hcase : (l.length : Int) ≤ off
  · rw [if_pos hcase]
    refine ⟨rfl, rfl, rfl, by rw [if_pos hcase], ?_, Or.inr rfl⟩
    simp only [List.length_nil, Nat.cast_zero, add_zero]
    constructor
    · intro h; cases h
    · intro h; omega
  · rw [if_neg hcase]
    dsimp only
    have hlen2 : (l.drop off.toNat).length = l.length - off.toNat :=
      List.length_drop _ _
    by_cases hmore : decide (lim < ((l.drop off.toNat).length : Int)) = true
    · have hm := of_decide_eq_true hmore
      have hlen3 : ((l.drop off.toNat).take lim.toNat).length = lim.toNat := by
        rw [List.length_take]
        omega
      rw [if_pos hmore]
      refine ⟨rfl, rfl, rfl, by rw [if_neg hcase], ?_, ?_⟩
      · simp only [hmore, true_iff]
        rw [hlen3]
        omega
      · left
        rw [hlen3]
        omega
    · have hmArith : ¬lim < ((l.drop off.toNat).length : Int) := by
        intro hcon
        exact hmore (decide_eq_true hcon)
      rw [if_neg hmore]
      refine ⟨rfl, rfl, rfl, ?_, ?_, ?_⟩
      · rw [if_neg hcase]
        rw [List.take_of_length_le (by omega)]
      · constructor
        · intro h; exact absurd h hmore
        · intro h; exfalso; omega
      · left
        omega

/-! ## Decimal numerals (`fmt` verb `%d`, `strconv.ParseInt`) -/

/-- The decimal digit characters. -/
def digitChar : Nat → Char
  | 0 => '0' | 1 => '1' | 2 => '2' | 3 => '3' | 4 => '4'
  | 5 => '5' | 6 => '6' | 7 => '7' | 8 => '8' | _ => '9'

/-- Emit the decimal digits of `n` in front of `acc`; the fuel bounds the
number of digits (any fuel above the digit count is enough). -/
def natReprAux : Nat → Nat → Str → Str
  | 0, _, acc => acc
  | fuel + 1, n, acc =>
    if n < 10 then digitChar n :: acc
    else natReprAux fuel (n / 10) (digitChar (n % 10) :: acc)

/-- Decimal rendering of a natural number (`fmt` verb `%d`, non-negative
case). -/
def natRepr (n : Nat) : Str := natReprAux (n + 1) n []

/-- Decimal rendering of an `int64` (`fmt` verb `%d`). -/
def intRepr (n : Int) : Str :=
  if n < 0 then '-' :: natRepr (-n).toNat else natRepr n.toNat

/-- Numeric value of a digit character, if it is one. -/
def digitVal (c : Char) : Option Nat :=
  if 48 ≤ c.toNat ∧ c.toNat ≤ 57 then some (c.toNat - 48) else none

/-- Accumulating base-10 parse; fails on the first non-digit. -/
def parseDigits : Str → Nat → Option Nat
  | [], acc => some acc
  | c :: rest, acc =>
    match digitVal c with
    | some d => parseDigits rest (acc * 10 + d)
    | none => none

/-- A non-empty all-digit string parse. -/
def parseUnsigned : Str → Option Nat
  | [] => none
  | c :: rest => parseDigits (c :: rest) 0

/-- `strconv.ParseInt(s, 10, 64)`: optional sign, decimal digits, and the
`int64` range check (out-of-range input is an error, modelled as `none`). -/
def parseIntStr : Str → Option Int
  | [] => none
  | c :: rest =>
    if c = '-' then
      match parseUnsigned rest with
      | some m => if m ≤ 2 ^ 63 then some (-(m : Int)) else none
      | none => none
    else if c = '+' then
      match parseUnsigned rest with
      | some m => if m ≤ 2 ^ 63 - 1 then some ((m : Int)) else none
      | none => none
    else
      match parseUnsigned (c :: rest) with
      | some m => if m ≤ 2 ^ 63 - 1 then some ((m : Int)) else none
      | none => none

lemma digitVal_digitChar {d : Nat} (h : d < 10) : digitVal (digitChar d) = some d := by
  interval_cases d <;> decide

lemma digitChar_isDigit (d : Nat) :
    48 ≤ (digitChar d).toNat ∧ (digitChar d).toNat ≤ 57 := by
  unfold digitChar
  split <;> decide

lemma parseDigits_natReprAux :
    ∀ (fuel n : Nat), n < 10 ^ fuel → ∀ (acc : Str),
      parseDigits (natReprAux fuel n acc) 0 = parseDigits acc n := by
  intro fuel
  induction fuel with
  | zero =>
    intro n hn acc
    interval_cases n
    rfl
  | succ fuel ih =>
    intro n hn acc
    by_cases h10 : n < 10
    · rw [natReprAux, if_pos h10]
      rw [parseDigits, digitVal_digitChar h10]
      simp
    · rw [natReprAux, if_neg h10]
      have hdiv : n / 10 < 10 ^ fuel := by
        rw [Nat.div_lt_iff_lt_mul (by omega)]
        calc n < 10 ^ (fuel + 1) := hn
        _ = 10 ^ fuel * 10 := by ring
      rw [ih (n / 10) hdiv]
      rw [parseDigits, digitVal_digitChar (Nat.mod_lt n (by omega))]
      dsimp only
      have hsum : n / 10 * 10 + n % 10 = n := by omega
      rw [hsum]

lemma parseDigits_natRepr (n : Nat) : parseDigits (natRepr n) 0 = some n := by
  rw [natRepr, parseDigits_natReprAux (n + 1) n (by
    calc n < 10 ^ n := Nat.lt_pow_self (by omega) n
    _ ≤ 10 ^ (n + 1) := Nat.pow_le_pow_right (by omega) (by omega))]
  rfl

lemma natReprAux_ne_nil_of_acc :
    ∀ (fuel n : Nat) (acc : Str), acc ≠ [] → natReprAux fuel n acc ≠ [] := by
  intro fuel
  induction fuel with
  | zero => intro n acc h; exact h
  | succ fuel ih =>
    intro n acc h
    rw [natReprAux]
    split
    · simp
    · exact ih _ _ (by simp)

lemma natRepr_ne_nil (n : Nat) : natRepr n ≠ [] := by
  rw [natRepr, natReprAux]
  split
  · simp
  · exact natReprAux_ne_nil_of_acc _ _ _ (by simp)

lemma natReprAux_all_digits :
    ∀ (fuel n : Nat) (acc : Str),
      (∀ c ∈ acc, 48 ≤ c.toNat ∧ c.toNat ≤ 57) →
      ∀ c ∈ natReprAux fuel n acc, 48 ≤ c.toNat ∧ c.toNat ≤ 57 := by
  intro fuel
  induction fuel with
  | zero => intro n acc hacc; exact hacc
  | succ fuel ih =>
    intro n acc hacc c hc
    rw [natReprAux] at hc
    split at hc
    · rcases List.mem_cons.mp hc with h | h
      · subst h; exact digitChar_isDigit n
      · exact hacc c h
    · refine ih _ _ ?_ c hc
      intro x hx
      rcases List.mem_cons.mp hx with h | h
      · subst h; exact digitChar_isDigit _
      · exact hacc x h

lemma natRepr_all_digits (n : Nat) :
    ∀ c ∈ natRepr n, 48 ≤ c.toNat ∧ c.toNat ≤ 57 :=
  natReprAux_all_digits (n + 1) n [] (by simp)

lemma parseUnsigned_natRepr (n : Nat) : parseUnsigned (natRepr n) = some n := by
  rcases hrepr : natRepr n with _ | ⟨c, rest⟩
  · exact absurd hrepr (natRepr_ne_nil n)
  · rw [parseUnsigned, ← hrepr, parseDigits_natRepr]

lemma parseIntStr_intRepr {n : Int}
    (h : -(2 ^ 63) ≤ n ∧ n ≤ 2 ^ 63 - 1) : parseIntStr (intRepr n) = some n := by
  by_cases hneg : n < 0
  · rw [intRepr, if_pos hneg, parseIntStr, if_pos rfl,
      parseUnsigned_natRepr (-n).toNat]
    have hbound : (-n).toNat ≤ 2 ^ 63 := by omega
    dsimp only
    rw [if_pos hbound]
    congr 1
    omega
  · rw [intRepr, if_neg hneg]
    rcases hrepr : natRepr n.toNat with _ | ⟨c, rest⟩
    · exact absurd hrepr (natRepr_ne_nil n.toNat)
    · have hdig : 48 ≤ c.toNat ∧ c.toNat ≤ 57 :=
        natRepr_all_digits n.toNat c (by rw [hrepr]; simp)
      have hnotdash : ¬c = '-' := by
        intro hcon
        subst hcon
        have h45 : ('-').toNat = 45 := by decide
        omega
      have hnotplus : ¬c = '+' := by
        intro hcon
        subst hcon
        have h43 : ('+').toNat = 43 := by decide
        omega
      rw [parseIntStr]
      rw [if_neg hnotdash, if_neg hnotplus]
      have hpu : parseUnsigned (c :: rest) = some n.toNat := by
        rw [← hrepr]
        exact parseUnsigned_natRepr n.toNat
      rw [hpu]
      have hbound : n.toNat ≤ 2 ^ 63 - 1 := by omega
      dsimp only
      rw [if_pos hbound]
      congr 1
      omega

/-! ## RFC 3339 timestamp rendering (`time.Time.Format(time.RFC3339)`) -/

/-- Zero-padded two-digit rendering. -/
def pad2 (n : Nat) : Str := if n < 10 then '0' :: natRepr n else natRepr n

/-- Zero-padded four-digit rendering (Go pads years to four digits). -/
def pad4 (n : Nat) : Str :=
  if n < 10 then '0' :: '0' :: '0' :: natRepr n
  else if n < 100 then '0' :: '0' :: natRepr n
  else if n < 1000 then '0' :: natRepr n
  else natRepr n

/-- Civil-from-days (Hinnant's algorithm, as done by `time` package date
computations): days since 1970-01-01 to year/month/day. -/
def civilFromDays (z0 : Int) : Int × Nat × Nat :=
  let z := z0 + 719468
  let era : Int := z.ediv 146097
  let doe : Nat := (z - era * 146097).toNat
  let yoe : Nat := (doe - doe / 1460 + doe / 36524 - doe / 146096) / 365
  let y : Int := (yoe : Int) + era * 400
  let doy : Nat := doe - (365 * yoe + yoe / 4 - yoe / 100)
  let mp : Nat := (5 * doy + 2) / 153
  let d : Nat := doy - (153 * mp + 2) / 5 + 1
  let m : Nat := if mp < 10 then mp + 3 else mp - 9
  (if m ≤ 2 then y + 1 else y, m, d)

/-- `a.CreatedAt.Format(time.RFC3339)` for a UTC time given as Unix
seconds: `yyyy-mm-ddThh:mm:ssZ`. -/
def rfc3339 (t : Int) : Str :=
  let days := t.ediv 86400
  let secs := (t.emod 86400).toNat
  let ymd := civilFromDays days
  pad4 ymd.1.toNat ++ '-' :: pad2 ymd.2.1 ++ '-' :: pad2 ymd.2.2 ++
    'T' :: pad2 (secs / 3600) ++ ':' :: pad2 (secs % 3600 / 60) ++
    ':' :: pad2 (secs % 60) ++ ['Z']

/-- Strings free of newline characters; the frontmatter encoding is only
injective on such field values. -/
def noNewline (s : Str) : Bool := s.all (fun c => !(c = '\n'))

lemma noNewline_natRepr (n : Nat) : noNewline (natRepr n) = true := by
  rw [noNewline, List.all_eq_true]
  intro c hc
  have := natRepr_all_digits n c hc
  have h10 : ('\n').toNat = 10 := by decide
  simp only [Bool.not_eq_true', decide_eq_false_iff_not]
  intro hcon
  rw [hcon] at this
  omega

lemma noNewline_append {a b : Str} (ha : noNewline a = true)
    (hb : noNewline b = true) : noNewline (a ++ b) = true := by
  rw [noNewline, List.all_eq_true] at *
  intro c hc
  rcases List.mem_append.mp hc with h | h
  · exact ha c h
  · exact hb c h

lemma noNewline_cons {c : Char} {s : Str} (hc : ¬c = '\n')
    (hs : noNewline s = true) : noNewline (c :: s) = true := by
  rw [noNewline, List.all_eq_true] at *
  intro x hx
  rcases List.mem_cons.mp hx with h | h
  · subst h; simpa using hc
  · exact hs x h

lemma noNewline_pad2 (n : Nat) : noNewline (pad2 n) = true := by
  rw [pad2]
  split
  · exact noNewline_cons (by decide) (noNewline_natRepr n)
  · exact noNewline_natRepr n

lemma noNewline_pad4 (n : Nat) : noNewline (pad4 n) = true := by
  rw [pad4]
  split
  · exact noNewline_cons (by decide)
      (noNewline_cons (by decide) (noNewline_cons (by decide) (noNewline_natRepr n)))
  split
  · exact noNewline_cons (by decide) (noNewline_cons (by decide) (noNewline_natRepr n))
  split
  · exact noNewline_cons (by decide) (noNewline_natRepr n)
  · exact noNewline_natRepr n

lemma noNewline_rfc3339 (t : Int) : noNewline (rfc3339 t) = true := by
  rw [rfc3339]
  refine noNewline_append ?_ (by decide)
  refine noNewline_append ?_ (noNewline_cons (by decide) (noNewline_pad2 _))
  refine noNewline_append ?_ (noNewline_cons (by decide) (noNewline_pad2 _))
  refine noNewline_append ?_ (noNewline_cons (by decide) (noNewline_pad2 _))
  refine noNewline_append ?_ (noNewline_cons (by decide) (noNewline_pad2 _))
  refine noNewline_append ?_ (noNewline_cons (by decide) (noNewline_pad2 _))
  exact noNewline_pad4 _

/-! ## More `strings` helpers used by the repository -/

/-- `strings.HasSuffix`. -/
def endsWith (s suf : Str) : Bool := suf.isSuffixOf s

/-- `strings.TrimSuffix`: drop `suf` from the end of `s` when present. -/
def removeSuffix (s suf : Str) : Str :=
  if endsWith s suf then s.take (s.length - suf.length) else s

/-- `strings.Split(s, sep)` for a one-character separator. -/
def splitOnChar (sep : Char) : Str → List Str
  | [] => [[]]
  | c :: rest =>
    if c = sep then [] :: splitOnChar sep rest
    else
      match splitOnChar sep rest with
      | r :: rs => (c :: r) :: rs
      | [] => [[c]]

/-- `strings.HasPrefix`. -/
def startsWith (s pre : Str) : Bool := pre.isPrefixOf s

/-- `strings.Index`: position of the first occurrence of `pat` in `s`
(`none` models the Go return value `-1`). -/
def firstIndexOf (s pat : Str) : Option Nat :=
  if pat.isPrefixOf s then some 0
  else
    match s with
    | [] => none
    | _ :: rest => (firstIndexOf rest pat).map (· + 1)

/-- `strings.Contains`. -/
def containsSub (s pat : Str) : Bool := (firstIndexOf s pat).isSome

/-! ## Entities (entity.go)

Go `map[string]string` metadata is modelled as an association list;
`buildArtifactMarkdown` iterates it in list order (Go map iteration order
is unspecified; no claim depends on it, and the loader never reads the
metadata back). -/

/-- `task.TaskStatus` (a string type). -/
abbrev TaskStatus := Str

def TaskStatusOpen : TaskStatus := str "open"

def TaskStatusInProgress : TaskStatus := str "in_progress"

def TaskStatusCompleted : TaskStatus := str "completed"

def TaskStatusArchived : TaskStatus := str "archived"

/-- `task.ArtifactType` (an open string type). -/
abbrev ArtifactType := Str

/-- `task.Project`. -/
structure Project where
  id : ProjectID
  name : Str
  description : Str
  workspacePath : Str
  metadata : List (Str × Str)
  createdAt : Int
  updatedAt : Int
deriving DecidableEq

/-- `task.Task`. -/
structure Task where
  id : TaskID
  projectId : ProjectID
  name : Str
  description : Str
  status : TaskStatus
  workspacePath : Str
  metadata : List (Str × Str)
  createdAt : Int
  updatedAt : Int
deriving DecidableEq

/-- `task.Artifact`. -/
structure Artifact where
  id : Str
  projectId : ProjectID
  taskId : TaskID
  type : ArtifactType
  content : Str
  metadata : List (Str × Str)
  createdAt : Int
deriving DecidableEq

/-- Modelled from the spec: `Task.DirName` is called by the repository
(`taskDirPath`) and pinned down by its unit test
(`entity_test`, `TestTask_DirName`), but its defining source file section
is not among the provided sources.  Spec §6 task directory name grammar:
`"[" + status + "]-" + taskId`. -/
def Task.DirName (t : Task) : Str := '[' :: t.status ++ ']' :: '-' :: t.id

/-- `Artifact.Filename` (`entity.go` lines 165-167):
`fmt.Sprintf("%s.%d.md", a.Type, a.CreatedAt.Unix())`. -/
def Artifact.Filename (a : Artifact) : Str :=
  a.type ++ '.' :: intRepr a.createdAt ++ str ".md"

/-! ## Artifact markdown encoding (repository.go, buildArtifactMarkdown) -/

/-- Join lines with a terminating newline after each. -/
def joinLines : List Str → Str
  | [] => []
  | l :: ls => l ++ '\n' :: joinLines ls

/-- The frontmatter lines written by `buildArtifactMarkdown`
(`repository.go` lines 590-612), without their trailing newlines. -/
def frontLines (a : Artifact) : List Str :=
  [str "id: " ++ a.id,
   str "project_id: " ++ a.projectId,
   str "task_id: " ++ a.taskId,
   str "type: " ++ a.type,
   str "created_at: " ++ rfc3339 a.createdAt] ++
  (if a.metadata = [] then []
   else str "metadata:" ::
     a.metadata.map (fun kv => str "  " ++ kv.1 ++ str ": " ++ kv.2))

/-- `buildArtifactMarkdown` (`repository.go` lines 590-612): the
frontmatter block between `---` delimiter lines, a blank line, then the
raw content. -/
def buildArtifactMarkdown (a : Artifact) : Str :=
  str "---\n" ++ joinLines (frontLines a) ++ str "---\n\n" ++ a.content

/-- `loadArtifact` (`repository.go` lines 614-658), with the file content
passed in place of the `os.ReadFile` result: parse `type.timestamp.md`
from the filename, and take the text after the first `\n---\n` following
the opening delimiter (trimmed) as the content; the reconstructed
metadata is always the empty map. -/
def loadArtifact (projectID : ProjectID) (taskID : TaskID)
    (filename : Str) (content : Str) : Option Artifact :=
  match splitOnChar '.' (removeSuffix filename (str ".md")) with
  | p0 :: p1 :: _ =>
    match parseIntStr p1 with
    | none => none
    | some timestamp =>
      let actualContent :=
        if startsWith content (str "---\n") then
          match firstIndexOf (content.drop 4) (str "\n---\n") with
          | some endIdx => trimSpace (content.drop (4 + endIdx + 5))
          | none => content
        else content
      some { id := intRepr timestamp, projectId := projectID,
             taskId := taskID, type := p0, content := actualContent,
             metadata := [], createdAt := timestamp }
  | _ => none

/-! ## Parsing facts for the artifact roundtrip -/

/-- The closing-delimiter pattern searched by `loadArtifact`. -/
def delimP : Str := ['\n', '-', '-', '-', '\n']

lemma delimP_eq : str "\n---\n" = delimP := by decide

lemma delim_not_prefix_cons {c : Char} {Z : Str} (hc : ¬c = '\n') :
    delimP.isPrefixOf (c :: Z) = false := by
  simp only [delimP, List.isPrefixOf, Bool.and_eq_false_iff]
  left
  simp only [beq_eq_false_iff_ne, Ne]
  exact fun h => hc h.symm

lemma noNewline_cons_elim {c : Char} {l : Str}
    (h : noNewline (c :: l) = true) : ¬c = '\n' ∧ noNewline l = true := by
  rw [noNewline, List.all_cons, Bool.and_eq_true] at h
  refine ⟨?_, h.2⟩
  simpa using h.1

lemma firstIndexOf_line (l : Str) (Y : Str) (hl : noNewline l = true)
    (hY : delimP.isPrefixOf ('\n' :: Y) = true) :
    firstIndexOf (l ++ '\n' :: Y) delimP = some l.length := by
  induction l with
  | nil =>
    rw [List.nil_append, firstIndexOf, if_pos hY]
    rfl
  | cons c l' ih =>
    obtain ⟨hc, hl'⟩ := noNewline_cons_elim hl
    rw [List.cons_append, firstIndexOf,
      if_neg (by simp [delim_not_prefix_cons hc])]
    rw [ih hl']
    rfl

lemma firstIndexOf_line_skip (l T : Str) (k : Nat) (hl : noNewline l = true)
    (hT : T.head? ≠ some '-') (hk : firstIndexOf T delimP = some k) :
    firstIndexOf (l ++ '\n' :: T) delimP = some (l.length + 1 + k) := by
  induction l with
  | nil =>
    have hnp : delimP.isPrefixOf ('\n' :: T) = false := by
      cases T with
      | nil => decide
      | cons t ts =>
        have ht : ¬t = '-' := fun hcon => hT (by rw [hcon]; rfl)
        simp only [delimP, List.isPrefixOf, Bool.and_eq_false_iff]
        right; left
        simp only [beq_eq_false_iff_ne, Ne]
        exact fun h => ht h.symm
    rw [List.nil_append, firstIndexOf, if_neg (by simp [hnp])]
    rw [hk]
    simp only [Option.map_some', List.length_nil]
    congr 1
    omega
  | cons c l' ih =>
    obtain ⟨hc, hl'⟩ := noNewline_cons_elim hl
    rw [List.cons_append, firstIndexOf,
      if_neg (by simp [delim_not_prefix_cons hc])]
    rw [ih hl']
    simp only [Option.map_some', List.length_cons]
    congr 1
    omega

lemma joinLines_cons_length (l : Str) (L : List Str) :
    (joinLines (l :: L)).length = l.length + 1 + (joinLines L).length := by
  rw [joinLines]
  simp [List.length_append]
  omega

lemma head?_joinLines_cons_append (l : Str) (L : List Str) (Z : Str)
    (hl : l.head? ≠ some '-') :
    (joinLines (l :: L) ++ Z).head? ≠ some '-' := by
  rw [joinLines, List.append_assoc, List.cons_append]
  cases l with
  | nil => simp
  | cons c l' =>
    rw [List.cons_append, List.head?_cons]
    simpa using hl

lemma firstIndexOf_joinLines (L : List Str) (X : Str) (hne : L ≠ [])
    (hnl : ∀ l ∈ L, noNewline l = true)
    (hnd : ∀ l ∈ L, l.head? ≠ some '-') :
    firstIndexOf (joinLines L ++ '-' :: '-' :: '-' :: '\n' :: X) delimP =
      some ((joinLines L).length - 1) := by
  induction L with
  | nil => exact absurd rfl hne
  | cons l L' ih =>
    cases L' with
    | nil =>
      have hshape : joinLines [l] ++ '-' :: '-' :: '-' :: '\n' :: X =
          l ++ '\n' :: ('-' :: '-' :: '-' :: '\n' :: X) := by
        simp [joinLines]
      rw [hshape,
        firstIndexOf_line l _ (hnl l (by simp)) (by simp [delimP, List.isPrefixOf])]
      congr 1
      simp [joinLines]
    | cons l2 L'' =>
      have hshape : joinLines (l :: l2 :: L'') ++ '-' :: '-' :: '-' :: '\n' :: X =
          l ++ '\n' :: (joinLines (l2 :: L'') ++ '-' :: '-' :: '-' :: '\n' :: X) := by
        rw [joinLines]
        simp
      have hT : (joinLines (l2 :: L'') ++ '-' :: '-' :: '-' :: '\n' :: X).head? ≠
          some '-' :=
        head?_joinLines_cons_append l2 L'' _ (hnd l2 (by simp))
      rw [hshape,
        firstIndexOf_line_skip l _ _ (hnl l (by simp)) hT
        (ih (by simp) (fun x hx => hnl x (List.mem_cons_of_mem _ hx))
          (fun x hx => hnd x (List.mem_cons_of_mem _ hx)))]
      congr 1
      simp only [joinLines_cons_length]
      omega

lemma splitOnChar_sep_left {sep : Char} {A B : Str} (hA : sep ∉ A) :
    splitOnChar sep (A ++ sep :: B) = A :: splitOnChar sep B := by
  induction A with
  | nil =>
    rw [List.nil_append, splitOnChar, if_pos rfl]
  | cons c A' ih =>
    have hc : ¬c = sep := fun hcon => hA (by rw [hcon]; simp)
    rw [List.cons_append, splitOnChar, if_neg hc,
      ih (fun hmem => hA (List.mem_cons_of_mem _ hmem))]

lemma splitOnChar_no_sep {sep : Char} {B : Str} (hB : sep ∉ B) :
    splitOnChar sep B = [B] := by
  induction B with
  | nil => rfl
  | cons c B' ih =>
    have hc : ¬c = sep := fun hcon => hB (by rw [hcon]; simp)
    rw [splitOnChar, if_neg hc, ih (fun hmem => hB (List.mem_cons_of_mem _ hmem))]

lemma removeSuffix_append (x s : Str) : removeSuffix (x ++ s) s = x := by
  rw [removeSuffix, endsWith,
    if_pos (List.isSuffixOf_iff_suffix.mpr (List.suffix_append x s))]
  rw [List.length_append, Nat.add_sub_cancel, List.take_left]

lemma trimSpace_newline_cons (C : Str) : trimSpace ('\n' :: C) = trimSpace C := by
  rw [trimSpace, trimSpace, trimChar, trimChar, List.dropWhile_cons,
    if_pos (by decide)]

lemma intRepr_no_dot (n : Int) : '.' ∉ intRepr n := by
  have hdig : ∀ m : Nat, '.' ∉ natRepr m := by
    intro m hmem
    have h := natRepr_all_digits m '.' hmem
    have h46 : ('.').toNat = 46 := by decide
    omega
  rw [intRepr]
  split
  · intro hmem
    rcases List.mem_cons.mp hmem with h | h
    · exact absurd h (by decide)
    · exact hdig _ h
  · exact hdig _

lemma frontLines_ne_nil (a : Artifact) : frontLines a ≠ [] := by
  rw [frontLines]
  simp

lemma joinLines_length_pos {L : List Str} (h : L ≠ []) :
    1 ≤ (joinLines L).length := by
  cases L with
  | nil => exact absurd rfl h
  | cons l L' =>
    rw [joinLines_cons_length]
    omega

lemma frontLines_noNewline (a : Artifact)
    (hid : noNewline a.id = true) (hpid : noNewline a.projectId = true)
    (htid : noNewline a.taskId = true) (htype : noNewline a.type = true)
    (hmeta : ∀ kv ∈ a.metadata, noNewline kv.1 = true ∧ noNewline kv.2 = true) :
    ∀ l ∈ frontLines a, noNewline l = true := by
  intro l hl
  rw [frontLines] at hl
  rcases List.mem_append.mp hl with h | h
  · simp only [List.mem_cons, List.not_mem_nil, or_false] at h
    rcases h with h | h | h | h | h
    · rw [h]; exact noNewline_append (by decide) hid
    · rw [h]; exact noNewline_append (by decide) hpid
    · rw [h]; exact noNewline_append (by decide) htid
    · rw [h]; exact noNewline_append (by decide) htype
    · rw [h]; exact noNewline_append (by decide) (noNewline_rfc3339 _)
  · by_cases hm : a.metadata = []
    · rw [if_pos hm] at h
      simp at h
    · rw [if_neg hm] at h
      rcases List.mem_cons.mp h with h | h
      · rw [h]; decide
      · rcases List.mem_map.mp h with ⟨kv, hkv, hmap⟩
        obtain ⟨h1, h2⟩ := hmeta kv hkv
        rw [← hmap]
        exact noNewline_append
          (noNewline_append (noNewline_append (by decide) h1) (by decide)) h2

lemma frontLines_head_not_dash (a : Artifact) :
    ∀ l ∈ frontLines a, l.head? ≠ some '-' := by
  intro l hl
  rw [frontLines] at hl
  rcases List.mem_append.mp hl with h | h
  · simp only [List.mem_cons, List.not_mem_nil, or_false] at h
    rcases h with h | h | h | h | h
    · rw [h, show str "id: " = 'i' :: str "d: " from by decide]
      simp
    · rw [h, show str "project_id: " = 'p' :: str "roject_id: " from by decide]
      simp
    · rw [h, show str "task_id: " = 't' :: str "ask_id: " from by decide]
      simp
    · rw [h, show str "type: " = 't' :: str "ype: " from by decide]
      simp
    · rw [h, show str "created_at: " = 'c' :: str "reated_at: " from by decide]
      simp
  · by_cases hm : a.metadata = []
    · rw [if_pos hm] at h
      simp at h
    · rw [if_neg hm] at h
      rcases List.mem_cons.mp h with h | h
      · rw [h]; decide
      · rcases List.mem_map.mp h with ⟨kv, hkv, hmap⟩
        rw [← hmap]
        rw [show str "  " = ' ' :: [' '] from by decide]
        simp

/-- Core of the artifact round trip: parsing the markdown built for `a`
(under the filename built for `a`) recovers `a`'s type and trimmed
content, the Unix-seconds id and timestamp, and an empty metadata map,
whenever the frontmatter field values are newline-free, the type contains
no dot, and the timestamp is within `int64` range. -/
lemma loadArtifact_build (pid : ProjectID) (tid : TaskID) (a : Artifact)
    (hid : noNewline a.id = true) (hpid : noNewline a.projectId = true)
    (htid : noNewline a.taskId = true) (htype : noNewline a.type = true)
    (hmeta : ∀ kv ∈ a.metadata, noNewline kv.1 = true ∧ noNewline kv.2 = true)
    (htnd : '.' ∉ a.type)
    (hts : -(2 ^ 63) ≤ a.createdAt ∧ a.createdAt ≤ 2 ^ 63 - 1) :
    loadArtifact pid tid a.Filename (buildArtifactMarkdown a) =
      some { id := intRepr a.createdAt, projectId := pid, taskId := tid,
             type := a.type, content := trimSpace a.content, metadata := [],
             createdAt := a.createdAt } := by
  have hfile : splitOnChar '.' (removeSuffix a.Filename (str ".md")) =
      [a.type, intRepr a.createdAt] := by
    rw [Artifact.Filename, removeSuffix_append, splitOnChar_sep_left htnd,
      splitOnChar_no_sep (intRepr_no_dot _)]
  have hsw : startsWith (buildArtifactMarkdown a) (str "---\n") = true := by
    rw [buildArtifactMarkdown, startsWith]
    refine List.isPrefixOf_iff_prefix.mpr ?_
    simp only [List.append_assoc]
    exact List.prefix_append _ _
  have hdrop4 : (buildArtifactMarkdown a).drop 4 =
      joinLines (frontLines a) ++ (str "---\n\n" ++ a.content) := by
    rw [buildArtifactMarkdown]
    simp only [List.append_assoc]
    rw [show (4 : Nat) = (str "---\n").length from by decide]
    exact List.drop_left _ _
  have hshape : str "---\n\n" ++ a.content =
      '-' :: '-' :: '-' :: '\n' :: '\n' :: a.content := by
    rw [show str "---\n\n" = ['-', '-', '-', '\n', '\n'] from by decide]
    simp
  have hidx : firstIndexOf
      (joinLines (frontLines a) ++ (str "---\n\n" ++ a.content))
      (str "\n---\n") = some ((joinLines (frontLines a)).length - 1) := by
    rw [delimP_eq, hshape]
    exact firstIndexOf_joinLines _ _ (frontLines_ne_nil a)
      (frontLines_noNewline a hid hpid htid htype hmeta)
      (frontLines_head_not_dash a)
  have hJ : 1 ≤ (joinLines (frontLines a)).length :=
    joinLines_length_pos (frontLines_ne_nil a)
  have hfinal : (buildArtifactMarkdown a).drop
      (4 + ((joinLines (frontLines a)).length - 1) + 5) = '\n' :: a.content := by
    rw [buildArtifactMarkdown]
    simp only [List.append_assoc]
    rw [show 4 + ((joinLines (frontLines a)).length - 1) + 5 =
        (str "---\n").length + ((joinLines (frontLines a)).length + 4) from by
      have h4 : (str "---\n").length = 4 := by decide
      omega]
    rw [List.drop_append, List.drop_append, hshape]
    rfl
  rw [loadArtifact, hfile]
  dsimp only
  rw [parseIntStr_intRepr hts]
  dsimp only
  rw [if_pos hsw, hdrop4, hidx]
  dsimp only
  rw [hfinal, trimSpace_newline_cons]

/-! ## Filesystem store model (repository.go)

The store is modelled at the granularity the repository observes: the
base directory's project subdirectories, each project's task
subdirectories (in `os.ReadDir` order), each task's optional parsed
`task.json` and its `artifacts/` files.  I/O failures of the mutating
operations are injected as explicit `Bool` outcome flags. -/

/-- The sentinel error values of `domain/task/errors.go`. -/
inductive Err where
  | ProjectNotFound
  | ProjectAlreadyExists
  | TaskNotFound
  | TaskAlreadyExists
  | ArtifactNotFound
  | StorageFailed
deriving DecidableEq

/-- A file in a task's `artifacts/` directory. -/
structure ArtifactFile where
  name : Str
  content : Str
deriving DecidableEq

/-- A task directory: its (status-encoded) name, its parsed `task.json`
if present, and its `artifacts/` files (`none`: subdirectory missing). -/
structure TaskDir where
  name : Str
  meta : Option Task
  artifacts : Option (List ArtifactFile)
deriving DecidableEq

/-- A project directory: its name, its parsed `project.json` if present,
and its task subdirectories. -/
structure ProjectDir where
  name : Str
  meta : Option Project
  tasks : List TaskDir
deriving DecidableEq

/-- The store root. -/
structure Store where
  projects : List ProjectDir
deriving DecidableEq

/-- `os.Stat(projectPath(id))`: the project directory, when present. -/
def findProject (st : Store) (pid : ProjectID) : Option ProjectDir :=
  st.projects.find? (fun p => decide (p.name = pid))

/-- The kanban directory-name pattern `^\[([a-z_]+)\]-(.+)$`
(`repository.go`, `findTaskDir` / `loadTaskMetadataFromDir`): a
successful match yields the status group and the task-id group.  The
greedy `[a-z_]+` never backtracks because `]` is not a status character,
so `takeWhile` matches the regex exactly. -/
def parseKanban : Str → Option (Str × Str)
  | [] => none
  | c :: cs =>
    if c = '[' then
      let s := cs.takeWhile isStatusChar
      let rest := cs.dropWhile isStatusChar
      if rest.take 2 = [']', '-'] ∧ s ≠ [] ∧ rest.drop 2 ≠ [] then
        some (s, rest.drop 2)
      else none
    else none

/-- The kanban directory name `"[" + status + "]-" + taskId` (spec §6). -/
def kanbanName (status tid : Str) : Str := '[' :: status ++ ']' :: '-' :: tid

lemma Task.DirName_eq (t : Task) : t.DirName = kanbanName t.status t.id := rfl

/-- One entry of `findTaskDir`'s scan: the entry matches the kanban
pattern with the requested id as the trailing group, or (legacy) its
whole name is the requested id. -/
def resolves (name : Str) (tid : TaskID) : Bool :=
  (match parseKanban name with
   | some sr => decide (sr.2 = tid)
   | none => false) || decide (name = tid)

/-- `findTaskDir` (`repository.go` lines 453-481): scan the project
directory, first match wins; a missing project directory reads as no
match (`""`, here `none`). -/
def findTaskDir (st : Store) (pid : ProjectID) (tid : TaskID) : Option TaskDir :=
  match findProject st pid with
  | none => none
  | some proj => proj.tasks.find? (fun e => resolves e.name tid)

/-- `loadTaskMetadataFromDir` (`repository.go` lines 546-588): the parsed
`task.json` when present, otherwise a record synthesized from the
directory name (legacy tolerance), stamped with the current time. -/
def loadTaskMetadataFromDir (pid : ProjectID) (now : Int) (e : TaskDir) : Task :=
  match e.meta with
  | some t => t
  | none =>
    let parsed := parseKanban e.name
    let tid : TaskID := match parsed with | some sr => sr.2 | none => e.name
    let status : TaskStatus :=
      match parsed with | some sr => sr.1 | none => TaskStatusOpen
    { id := tid, projectId := pid, name := tid, description := [],
      status := status, workspacePath := [], metadata := [],
      createdAt := now, updatedAt := now }

/-- `loadProjectMetadata` (`repository.go` lines 499-524): the parsed
`project.json` when present, otherwise a synthesized default record. -/
def loadProjectMetadata (now : Int) (p : ProjectDir) : Project :=
  match p.meta with
  | some pr => pr
  | none =>
    { id := p.name, name := p.name, description := [], workspacePath := [],
      metadata := [], createdAt := now, updatedAt := now }

/-- `GetTask` (`repository.go` lines 172-179). -/
def GetTask (st : Store) (pid : ProjectID) (tid : TaskID) (now : Int) :
    Except Err Task :=
  match findTaskDir st pid tid with
  | none => .error Err.TaskNotFound
  | some e => .ok (loadTaskMetadataFromDir pid now e)

/-- Apply `f` to the project directory named `pid`. -/
def updateProjectDir (st : Store) (pid : ProjectID)
    (f : ProjectDir → ProjectDir) : Store :=
  { projects := st.projects.map (fun p => if p.name = pid then f p else p) }

/-- Apply `f` to the first list entry satisfying `p` (the entry
`findTaskDir` returns). -/
def replaceFirst (p : TaskDir → Bool) (f : TaskDir → TaskDir) :
    List TaskDir → List TaskDir
  | [] => []
  | e :: rest => if p e then f e :: rest else e :: replaceFirst p f rest

/-- Apply `f` to the task directory that resolves `tid` inside project
`pid`. -/
def updateTaskDir (st : Store) (pid : ProjectID) (tid : TaskID)
    (f : TaskDir → TaskDir) : Store :=
  updateProjectDir st pid (fun p =>
    { p with tasks := replaceFirst (fun e => resolves e.name tid) f p.tasks })

/-- `CreateTask` (`repository.go` lines 142-169): `ProjectNotFound` when
the parent directory is absent, `TaskAlreadyExists` when the scan
resolves the id to any existing directory, otherwise create the
status-prefixed directory with an empty `artifacts/` subdirectory and
write `task.json` (success path of the directory/file writes). -/
def CreateTask (st : Store) (t : Task) : Except Err Store :=
  match findProject st t.projectId with
  | none => .error Err.ProjectNotFound
  | some proj =>
    if (proj.tasks.find? (fun e => resolves e.name t.id)).isSome then
      .error Err.TaskAlreadyExists
    else
      .ok (updateProjectDir st t.projectId (fun p =>
        { p with tasks := p.tasks ++
            [{ name := t.DirName, meta := some t, artifacts := some [] }] }))

/-- `UpdateTask` (`repository.go` lines 230-247): resolve the current
directory, stamp `updatedAt`, rename the directory when the
status-implied path changed (failure aborts before any metadata write),
then write `task.json` into the (possibly new) location.  `renameOk` and
`writeOk` are the outcomes of `os.Rename` and `os.WriteFile`. -/
def UpdateTask (st : Store) (t : Task) (now : Int)
    (renameOk writeOk : Bool) : Option Err × Store :=
  match findTaskDir st t.projectId t.id with
  | none => (some Err.TaskNotFound, st)
  | some oldDir =>
    let t' : Task := { t with updatedAt := now }
    let newName := t'.DirName
    if oldDir.name ≠ newName ∧ renameOk = false then
      (some Err.StorageFailed, st)
    else
      let st1 :=
        if oldDir.name ≠ newName then
          updateTaskDir st t.projectId t.id
            (fun e => { e with name := newName })
        else st
      if writeOk then
        let setMeta : TaskDir → TaskDir := fun e => { e with meta := some t' }
        let named : TaskDir → Bool := fun e => decide (e.name = newName)
        (none, updateProjectDir st1 t.projectId (fun p =>
          { p with tasks := replaceFirst named setMeta p.tasks }))
      else (some Err.StorageFailed, st1)

/-- `os.WriteFile` into a directory: replace the file of that name or
create it. -/
def writeFile (files : List ArtifactFile) (f : ArtifactFile) :
    List ArtifactFile :=
  if files.any (fun g => decide (g.name = f.name)) then
    files.map (fun g => if g.name = f.name then f else g)
  else files ++ [f]

/-- `SaveArtifact` (`repository.go` lines 266-296): resolve the task
directory (else `TaskNotFound`), ensure `artifacts/` exists, write the
artifact file (failure aborts), then reload the owning task and rewrite
its `updatedAt` — best-effort: the reload-and-rewrite outcome
(`metaWriteOk`, covering both the reload and the write) never surfaces as
the operation's error. -/
def SaveArtifact (st : Store) (a : Artifact) (now : Int)
    (writeOk metaWriteOk : Bool) : Option Err × Store :=
  match findTaskDir st a.projectId a.taskId with
  | none => (some Err.TaskNotFound, st)
  | some dir =>
    let st1 := updateTaskDir st a.projectId a.taskId
      (fun e => { e with artifacts := some (e.artifacts.getD []) })
    if writeOk = false then (some Err.StorageFailed, st1)
    else
      let st2 := updateTaskDir st1 a.projectId a.taskId
        (fun e => { e with artifacts := some (writeFile (e.artifacts.getD [])
            ⟨a.Filename, buildArtifactMarkdown a⟩) })
      let loaded := loadTaskMetadataFromDir a.projectId now dir
      if metaWriteOk then
        (none, updateTaskDir st2 a.projectId a.taskId
          (fun e => { e with meta := some { loaded with updatedAt := now } }))
      else (none, st2)

/-! ## List and search operations -/

/-- Insert holding the `sort.Slice` descending order on the key. -/
def insertByDesc {α : Type} (key : α → Int) (x : α) : List α → List α
  | [] => [x]
  | y :: rest =>
    if key y < key x then x :: y :: rest else y :: insertByDesc key x rest

/-- Sort descending by an integer key (`sort.Slice` with
`key[i].After(key[j])`; Go's sort is unstable, so orders agree wherever
keys are distinct). -/
def sortByDesc {α : Type} (key : α → Int) : List α → List α
  | [] => []
  | x :: rest => insertByDesc key x (sortByDesc key rest)

/-- The per-directory parse step of `ListArtifacts` (lines 336-347): skip
non-`.md` entries, parse the rest, skip parse failures. -/
def parseArtifacts (pid : ProjectID) (tid : TaskID)
    (files : List ArtifactFile) : List Artifact :=
  (files.filter (fun f => endsWith f.name (str ".md"))).filterMap
    (fun f => loadArtifact pid tid f.name f.content)

/-- `ListArtifacts` (`repository.go` lines 314-355): resolve the task,
read `artifacts/` (a missing subdirectory yields the zero-value page),
parse, sort newest-first, paginate. -/
def ListArtifacts (st : Store) (pid : ProjectID) (tid : TaskID)
    (opts : ListOptions) : Except Err (ListResult Artifact) :=
  match findTaskDir st pid tid with
  | none => .error Err.TaskNotFound
  | some dir =>
    match dir.artifacts with
    | none =>
      .ok { items := [], total := 0, limit := opts.limit,
            offset := opts.offset, hasMore := false }
    | some files =>
      .ok (applyPagination
        (sortByDesc Artifact.createdAt (parseArtifacts pid tid files)) opts)

/-- `ListTasks` (`repository.go` lines 182-227): skip entries without a
readable `task.json`, filter by status when requested, sort by
`updatedAt` descending, paginate. -/
def ListTasks (st : Store) (pid : ProjectID) (opts : ListOptions) :
    Except Err (ListResult Task) :=
  match findProject st pid with
  | none => .error Err.ProjectNotFound
  | some proj =>
    let tasks := (proj.tasks.filterMap (fun e => e.meta)).filter
      (fun t => decide (opts.status = []) || decide (t.status = opts.status))
    .ok (applyPagination (sortByDesc Task.updatedAt tasks) opts)

/-- `ListProjects` (`repository.go` lines 82-108): load (or synthesize)
each project's metadata, sort by `updatedAt` descending, paginate. -/
def ListProjects (st : Store) (now : Int) (opts : ListOptions) :
    ListResult Project :=
  applyPagination
    (sortByDesc Project.updatedAt (st.projects.map (loadProjectMetadata now)))
    opts

/-- `GetArtifact` (`repository.go` lines 298-312): list with
`ListOptions{Limit: 0}` and scan linearly for the id. -/
def GetArtifact (st : Store) (pid : ProjectID) (tid : TaskID)
    (artifactID : Str) : Except Err Artifact :=
  match ListArtifacts st pid tid internalScanOpts with
  | .error e => .error e
  | .ok r =>
    match r.items.find? (fun a => decide (a.id = artifactID)) with
    | some a => .ok a
    | none => .error Err.ArtifactNotFound

/-- `DeleteArtifact` (`repository.go` lines 408-433): list with
`ListOptions{Limit: 0}`, find the id, remove its file. -/
def DeleteArtifact (st : Store) (pid : ProjectID) (tid : TaskID)
    (artifactID : Str) : Option Err × Store :=
  match findTaskDir st pid tid with
  | none => (some Err.TaskNotFound, st)
  | some _ =>
    match ListArtifacts st pid tid internalScanOpts with
    | .error e => (some e, st)
    | .ok r =>
      match r.items.find? (fun a => decide (a.id = artifactID)) with
      | some a =>
        (none, updateTaskDir st pid tid (fun e =>
          { e with artifacts := some ((e.artifacts.getD []).filter
              (fun f => !(decide (f.name = a.Filename)))) }))
      | none => (some Err.ArtifactNotFound, st)

/-- The accumulation loop of `SearchArtifacts` (`repository.go` lines
358-403): the flat list of matching artifacts gathered over the scanned
scope, before the final pagination.  Every internal listing is made with
`ListOptions{Limit: 0}`. -/
def searchAccum (st : Store) (now : Int) (query : Str)
    (projectID : Option ProjectID) (taskID : Option TaskID) : List Artifact :=
  let queryLower := toLowerStr query
  let projectIDs : List ProjectID :=
    match projectID with
    | some p => [p]
    | none => ((ListProjects st now internalScanOpts).items).map Project.id
  projectIDs.flatMap (fun pid =>
    let taskIDs : List TaskID :=
      match taskID, projectID with
      | some t, some _ => [t]
      | _, _ =>
        match ListTasks st pid internalScanOpts with
        | .ok r => r.items.map Task.id
        | .error _ => []
    taskIDs.flatMap (fun tid =>
      match ListArtifacts st pid tid internalScanOpts with
      | .ok r => r.items.filter
          (fun a => containsSub (toLowerStr a.content) queryLower)
      | .error _ => []))

/-- `SearchArtifacts` (`repository.go` lines 358-406): the accumulated
matches of the scan, paginated as one unit. -/
def SearchArtifacts (st : Store) (now : Int) (query : Str)
    (projectID : Option ProjectID) (taskID : Option TaskID)
    (opts : ListOptions) : ListResult Artifact :=
  applyPagination (searchAccum st now query projectID taskID) opts

deriving instance DecidableEq for Except

/-! ## Store lemmas -/

/-- A status group accepted by the kanban pattern: non-empty, all
characters in `[a-z_]`. -/
def isStatusStr (s : Str) : Bool := !s.isEmpty && s.all isStatusChar

lemma takeWhile_dropWhile_append {p : Char → Bool} {s : Str}
    (hs : s.all p = true) {c : Char} (hc : p c = false) (r : Str) :
    (s ++ c :: r).takeWhile p = s ∧ (s ++ c :: r).dropWhile p = c :: r := by
  induction s with
  | nil =>
    simp [List.takeWhile_cons, List.dropWhile_cons, hc]
  | cons d s' ih =>
    rw [List.all_cons, Bool.and_eq_true] at hs
    obtain ⟨ih1, ih2⟩ := ih hs.2
    constructor
    · rw [List.cons_append, List.takeWhile_cons, if_pos hs.1, ih1]
    · rw [List.cons_append, List.dropWhile_cons, if_pos hs.1, ih2]

lemma parseKanban_kanbanName {s tid : Str} (hs : isStatusStr s = true)
    (ht : tid ≠ []) : parseKanban (kanbanName s tid) = some (s, tid) := by
  rw [isStatusStr, Bool.and_eq_true] at hs
  have hsne : s ≠ [] := by
    intro hcon
    rw [hcon] at hs
    simp at hs
  obtain ⟨htw, hdw⟩ :=
    takeWhile_dropWhile_append (s := s) hs.2 (c := ']') (by decide) ('-' :: tid)
  rw [kanbanName, List.cons_append, parseKanban.eq_2, if_pos rfl]
  dsimp only
  rw [hdw, htw]
  rw [if_pos ⟨rfl, hsne, ht⟩]
  rfl

lemma resolves_kanbanName {s tid : Str} (hs : isStatusStr s = true)
    (ht : tid ≠ []) : resolves (kanbanName s tid) tid = true := by
  rw [resolves, parseKanban_kanbanName hs ht]
  simp

lemma kanbanName_inj_status {s1 s2 t1 t2 : Str} (hs1 : isStatusStr s1 = true)
    (hs2 : isStatusStr s2 = true) (ht1 : t1 ≠ []) (ht2 : t2 ≠ [])
    (h : kanbanName s1 t1 = kanbanName s2 t2) : s1 = s2 ∧ t1 = t2 := by
  have h1 := parseKanban_kanbanName hs1 ht1
  have h2 := parseKanban_kanbanName hs2 ht2
  rw [h, h2] at h1
  injection h1 with h3
  exact ⟨congrArg Prod.fst h3.symm, congrArg Prod.snd h3.symm⟩

lemma find?_append_first {α : Type} (pred : α → Bool) (A : List α) (e : α)
    (B : List α) (hA : ∀ x ∈ A, pred x = false) (he : pred e = true) :
    (A ++ e :: B).find? pred = some e := by
  induction A with
  | nil =>
    rw [List.nil_append, List.find?_cons, he]
  | cons a A' ih =>
    rw [List.cons_append, List.find?_cons, hA a (by simp)]
    exact ih (fun x hx => hA x (List.mem_cons_of_mem _ hx))

lemma find?_eq_none_of_all {α : Type} (pred : α → Bool) (l : List α)
    (h : ∀ x ∈ l, pred x = false) : l.find? pred = none := by
  induction l with
  | nil => rfl
  | cons a l' ih =>
    rw [List.find?_cons, h a (by simp)]
    exact ih (fun x hx => h x (List.mem_cons_of_mem _ hx))

lemma replaceFirst_append (p : TaskDir → Bool) (f : TaskDir → TaskDir)
    (A : List TaskDir) (e : TaskDir) (B : List TaskDir)
    (hA : ∀ x ∈ A, p x = false) (he : p e = true) :
    replaceFirst p f (A ++ e :: B) = A ++ f e :: B := by
  induction A with
  | nil =>
    rw [List.nil_append, replaceFirst, if_pos he, List.nil_append]
  | cons a A' ih =>
    rw [List.cons_append, replaceFirst, if_neg (by rw [hA a (by simp)]; simp),
      ih (fun x hx => hA x (List.mem_cons_of_mem _ hx)), List.cons_append]

lemma findProject_updateProjectDir (st : Store) (pid : ProjectID)
    (f : ProjectDir → ProjectDir) (hf : ∀ p, (f p).name = p.name) :
    findProject (updateProjectDir st pid f) pid =
      (findProject st pid).map f := by
  rw [findProject, findProject, updateProjectDir]
  induction st.projects with
  | nil => rfl
  | cons p ps ih =>
    rw [List.map_cons, List.find?_cons, List.find?_cons]
    by_cases hp : p.name = pid
    · have h1 : decide ((if p.name = pid then f p else p).name = pid) = true := by
        rw [if_pos hp, hf p, hp]
        simp
      rw [h1, if_pos hp]
      simp [decide_eq_true_eq.mpr hp]
    · have h1 : decide ((if p.name = pid then f p else p).name = pid) = false := by
        rw [if_neg hp]
        simpa using hp
      rw [h1, if_neg hp]
      simp only [decide_eq_false_iff_not]
      rw [decide_eq_false hp]
      exact ih

lemma findTaskDir_updateTaskDir (st : Store) (pid : ProjectID) (tid : TaskID)
    (f : TaskDir → TaskDir) (hf : ∀ e, (f e).name = e.name) :
    findTaskDir (updateTaskDir st pid tid f) pid tid =
      (findTaskDir st pid tid).map f := by
  rw [findTaskDir, findTaskDir, updateTaskDir,
    findProject_updateProjectDir st pid
      (fun p =>
        { p with tasks := replaceFirst (fun e => resolves e.name tid) f p.tasks })
      (fun p => rfl)]
  cases hfp : findProject st pid with
  | none => rfl
  | some proj =>
    simp only [Option.map_some']
    have hrepl : ∀ (l : List TaskDir),
        (replaceFirst (fun e => resolves e.name tid) f l).find?
            (fun e => resolves e.name tid) =
          (l.find? (fun e => resolves e.name tid)).map f := by
      intro l
      induction l with
      | nil => rfl
      | cons e l' ih =>
        by_cases hp : resolves e.name tid = true
        · rw [replaceFirst, if_pos hp]
          rw [List.find?_cons_of_pos (p := fun (e : TaskDir) => resolves e.name tid) _
              (show resolves (f e).name tid = true by rw [hf e]; exact hp),
            List.find?_cons_of_pos (p := fun (e : TaskDir) => resolves e.name tid) _ hp]
          rfl
        · have hfalse : resolves e.name tid = false := by
            simpa using hp
          rw [replaceFirst, if_neg (by rw [hfalse]; simp)]
          rw [List.find?_cons_of_neg (p := fun (e : TaskDir) => resolves e.name tid) _ hp,
            List.find?_cons_of_neg (p := fun (e : TaskDir) => resolves e.name tid) _ hp]
          exact ih
    exact hrepl proj.tasks

lemma resolves_self (tid : TaskID) : resolves tid tid = true := by
  rw [resolves]
  simp

lemma writeFile_mem (files : List ArtifactFile) (f : ArtifactFile) :
    f ∈ writeFile files f := by
  rw [writeFile]
  by_cases h : files.any (fun g => decide (g.name = f.name)) = true
  · rw [if_pos h]
    rcases List.any_eq_true.mp h with ⟨g, hg, hgname⟩
    simp only [decide_eq_true_eq] at hgname
    refine List.mem_map.mpr ⟨g, hg, ?_⟩
    rw [if_pos hgname]
  · rw [if_neg h]
    simp

/-! ## Claim theorems: store operations -/

/-- C5: `CreateTask` preconditions — `ProjectNotFound` when the parent
project directory is absent; `TaskAlreadyExists` when the scan finds any
existing directory for the task's id under any status prefix (or a legacy
unprefixed directory of that name); otherwise the status-prefixed task
directory is created with an empty `artifacts/` subdirectory and
`task.json` is written. -/
theorem C5_createTask_preconditions (st : Store) (t : Task) :
    (findProject st t.projectId = none →
      CreateTask st t = .error Err.ProjectNotFound) ∧
    (∀ proj, findProject st t.projectId = some proj →
      (∃ e ∈ proj.tasks,
        (∃ s, isStatusStr s = true ∧ t.id ≠ [] ∧ e.name = kanbanName s t.id) ∨
          e.name = t.id) →
      CreateTask st t = .error Err.TaskAlreadyExists) ∧
    (∀ proj, findProject st t.projectId = some proj →
      (∀ e ∈ proj.tasks, resolves e.name t.id = false) →
      CreateTask st t = .ok (updateProjectDir st t.projectId (fun p =>
        { p with tasks := p.tasks ++
            [{ name := t.DirName, meta := some t, artifacts := some [] }] }))) := by
  refine ⟨?_, ?_, ?_⟩
  · intro h
    rw [CreateTask, h]
  · intro proj hproj hex
    rw [CreateTask, hproj]
    dsimp only
    have hsome : (proj.tasks.find? (fun e => resolves e.name t.id)).isSome = true := by
      rw [List.find?_isSome]
      obtain ⟨e, he, hcase⟩ := hex
      refine ⟨e, he, ?_⟩
      rcases hcase with ⟨s, hs, hid, hname⟩ | hname
      · rw [hname]
        exact resolves_kanbanName hs hid
      · rw [hname]
        exact resolves_self t.id
    rw [if_pos hsome]
  · intro proj hproj hall
    rw [CreateTask, hproj]
    dsimp only
    have hnone : proj.tasks.find? (fun e => resolves e.name t.id) = none :=
      find?_eq_none_of_all _ _ hall
    rw [if_neg (by rw [hnone]; simp)]

/-- C6: `UpdateTask` rename-failure atomicity — when the task resolves to
a directory whose name differs from the status-implied one and the rename
fails, the operation returns `StorageFailed` and the store (in particular
the task's metadata file) is unchanged. -/
theorem C6_update_rename_failure (st : Store) (t : Task) (now : Int)
    (writeOk : Bool) (oldDir : TaskDir)
    (hfind : findTaskDir st t.projectId t.id = some oldDir)
    (hdiff : oldDir.name ≠ t.DirName) :
    UpdateTask st t now false writeOk = (some Err.StorageFailed, st) := by
  simp only [UpdateTask, hfind]
  rw [if_pos ⟨hdiff, trivial⟩]

/-- C8: `SaveArtifact` best-effort side effect — once the task resolves
and the artifact file write succeeds, the operation reports no error
whatever the outcome of the task-metadata reload-and-rewrite, and the
written artifact file is present in the resulting task directory. -/
theorem C8_saveArtifact_best_effort (st : Store) (a : Artifact) (now : Int)
    (metaWriteOk : Bool) (dir : TaskDir)
    (hfind : findTaskDir st a.projectId a.taskId = some dir) :
    (SaveArtifact st a now true metaWriteOk).1 = none ∧
    ∃ dir', findTaskDir (SaveArtifact st a now true metaWriteOk).2
        a.projectId a.taskId = some dir' ∧
      ⟨a.Filename, buildArtifactMarkdown a⟩ ∈ dir'.artifacts.getD [] := by
  have hupd := findTaskDir_updateTaskDir st a.projectId a.taskId
    (fun e => { e with artifacts := some (e.artifacts.getD []) }) (fun e => rfl)
  simp only [SaveArtifact, hfind]
  rw [if_neg (by simp)]
  cases metaWriteOk
  · rw [if_neg (by simp)]
    refine ⟨rfl, ?_⟩
    dsimp only
    rw [findTaskDir_updateTaskDir _ _ _
        (fun e => { e with artifacts := some (writeFile (e.artifacts.getD [])
          ⟨a.Filename, buildArtifactMarkdown a⟩) }) (fun e => rfl),
      findTaskDir_updateTaskDir _ _ _
        (fun e => { e with artifacts := some (e.artifacts.getD []) })
        (fun e => rfl),
      hfind]
    refine ⟨_, rfl, ?_⟩
    dsimp only [Option.map_some']
    exact writeFile_mem _ _
  · rw [if_pos rfl]
    refine ⟨rfl, ?_⟩
    dsimp only
    rw [findTaskDir_updateTaskDir _ _ _
        (fun e => { e with meta := some { loadTaskMetadataFromDir a.projectId now dir with updatedAt := now } }) (fun e => rfl),
      findTaskDir_updateTaskDir _ _ _
        (fun e => { e with artifacts := some (writeFile (e.artifacts.getD [])
          ⟨a.Filename, buildArtifactMarkdown a⟩) }) (fun e => rfl),
      findTaskDir_updateTaskDir _ _ _
        (fun e => { e with artifacts := some (e.artifacts.getD []) })
        (fun e => rfl),
      hfind]
    refine ⟨_, rfl, ?_⟩
    dsimp only [Option.map_some']
    exact writeFile_mem _ _

lemma findProject_updateTaskDir (st : Store) (pid : ProjectID) (tid : TaskID)
    (f : TaskDir → TaskDir) :
    findProject (updateTaskDir st pid tid f) pid =
      (findProject st pid).map (fun p =>
        { p with tasks := replaceFirst (fun e => resolves e.name tid) f p.tasks }) := by
  rw [updateTaskDir]
  exact findProject_updateProjectDir st pid _ (fun p => rfl)

/-- C4: Status-rename bijectivity — for a task stored under status `X` as
the unique directory resolving its id, a successful `UpdateTask` to
status `Y` leaves a directory named with the `Y`-prefix, no directory
with the `X`-prefix for that id, and a subsequent `GetTask` returns the
task with the same id, name and metadata (status now `Y`). -/
theorem C4_status_rename (st : Store) (t0 : Task) (now : Int)
    (X Y : TaskStatus) (proj : ProjectDir) (A B : List TaskDir) (e : TaskDir)
    (hX : isStatusStr X = true) (hY : isStatusStr Y = true) (hXY : X ≠ Y)
    (hid : t0.id ≠ [])
    (hproj : findProject st t0.projectId = some proj)
    (htasks : proj.tasks = A ++ e :: B)
    (hename : e.name = kanbanName X t0.id)
    (_hmeta : e.meta = some t0) (_ht0 : t0.status = X)
    (hA : ∀ x ∈ A, resolves x.name t0.id = false)
    (hB : ∀ x ∈ B, resolves x.name t0.id = false) :
    (UpdateTask st { t0 with status := Y } now true true).1 = none ∧
    (∃ proj', findProject (UpdateTask st { t0 with status := Y } now true true).2
        t0.projectId = some proj' ∧
      proj'.tasks = A ++ ({ e with name := kanbanName Y t0.id, meta := some { t0 with status := Y, updatedAt := now } } :: B) ∧
      (∀ x ∈ proj'.tasks, x.name ≠ kanbanName X t0.id)) ∧
    GetTask (UpdateTask st { t0 with status := Y } now true true).2
        t0.projectId t0.id now =
      .ok { t0 with status := Y, updatedAt := now } := by
  have he_res : resolves e.name t0.id = true := by
    rw [hename]
    exact resolves_kanbanName hX hid
  have hfind : findTaskDir st t0.projectId t0.id = some e := by
    rw [findTaskDir, hproj]
    dsimp only
    rw [htasks]
    exact find?_append_first _ A e B hA he_res
  have hYne : kanbanName Y t0.id ≠ kanbanName X t0.id := by
    intro hcon
    exact hXY ((kanbanName_inj_status hY hX hid hid hcon).1).symm
  have hdiff : e.name ≠ kanbanName Y t0.id := by
    rw [hename]
    exact fun hcon => hYne hcon.symm
  have hAY : ∀ x ∈ A, x.name ≠ kanbanName Y t0.id := by
    intro x hx hcon
    have := hA x hx
    rw [hcon, resolves_kanbanName hY hid] at this
    cases this
  have hdirY : ({ t0 with status := Y, updatedAt := now } : Task).DirName =
      kanbanName Y t0.id := rfl
  have hres : UpdateTask st ({ t0 with status := Y }) now true true =
      (none, updateProjectDir (updateTaskDir st t0.projectId t0.id
          (fun d => { d with name := kanbanName Y t0.id })) t0.projectId
        (fun p => { p with tasks := replaceFirst (fun d => decide (d.name = kanbanName Y t0.id)) (fun d => { d with meta := some { t0 with status := Y, updatedAt := now } }) p.tasks })) := by
    simp only [UpdateTask, hfind]
    rw [hdirY, if_neg (fun h => absurd h.2 (by simp)), if_pos trivial,
      if_pos hdiff]
  have hfp1 : findProject (updateTaskDir st t0.projectId t0.id
      (fun d => { d with name := kanbanName Y t0.id })) t0.projectId =
      some { proj with tasks := A ++ ({ e with name := kanbanName Y t0.id } :: B) } := by
    rw [findProject_updateTaskDir, hproj]
    dsimp only [Option.map_some']
    rw [htasks, replaceFirst_append _ _ A e B hA he_res]
  have hfp2 : findProject (UpdateTask st ({ t0 with status := Y }) now true true).2
      t0.projectId = some { proj with tasks := A ++ ({ e with name := kanbanName Y t0.id, meta := some { t0 with status := Y, updatedAt := now } } :: B) } := by
    rw [hres]
    dsimp only
    rw [findProject_updateProjectDir (updateTaskDir st t0.projectId t0.id (fun d => { d with name := kanbanName Y t0.id })) t0.projectId (fun p => { p with tasks := replaceFirst (fun d => decide (d.name = kanbanName Y t0.id)) (fun d => { d with meta := some { t0 with status := Y, updatedAt := now } }) p.tasks }) (fun p => rfl), hfp1]
    dsimp only [Option.map_some']
    rw [replaceFirst_append _ _ A ({ e with name := kanbanName Y t0.id }) B
      (fun x hx => decide_eq_false (hAY x hx)) (by simp)]
  refine ⟨by rw [hres], ⟨_, hfp2, rfl, ?_⟩, ?_⟩
  · intro x hx hcon
    rcases List.mem_append.mp hx with hxa | hxb
    · have := hA x hxa
      rw [hcon, resolves_kanbanName hX hid] at this
      cases this
    · rcases List.mem_cons.mp hxb with hxe | hxb'
      · rw [hxe] at hcon
        exact hYne hcon
      · have := hB x hxb'
        rw [hcon, resolves_kanbanName hX hid] at this
        cases this
  · rw [GetTask, findTaskDir, hfp2]
    dsimp only
    rw [find?_append_first _ A _ B hA (by
      show resolves (kanbanName Y t0.id) t0.id = true
      exact resolves_kanbanName hY hid)]
    rfl

/-! ## Search scope and the search claim -/

/-- The artifacts visited by `SearchArtifacts`'s scan: the same
project/task/artifact enumeration (every internal listing made with
`ListOptions{Limit: 0}`, hence capped at the 50 newest entries), without
the query filter. -/
def searchScope (st : Store) (now : Int)
    (projectID : Option ProjectID) (taskID : Option TaskID) : List Artifact :=
  let projectIDs : List ProjectID :=
    match projectID with
    | some p => [p]
    | none => ((ListProjects st now internalScanOpts).items).map Project.id
  projectIDs.flatMap (fun pid =>
    let taskIDs : List TaskID :=
      match taskID, projectID with
      | some t, some _ => [t]
      | _, _ =>
        match ListTasks st pid internalScanOpts with
        | .ok r => r.items.map Task.id
        | .error _ => []
    taskIDs.flatMap (fun tid =>
      match ListArtifacts st pid tid internalScanOpts with
      | .ok r => r.items
      | .error _ => []))

lemma applyPagination_items_subset {α : Type} (l : List α)
    (opts : ListOptions) : (applyPagination l opts).items ⊆ l := by
  unfold applyPagination
  by_cases hcase : (l.length : Int) ≤
      (if opts.offset < 0 then 0 else (opts.offset : Int))
  · rw [if_pos hcase]
    intro x hx
    simp at hx
  · rw [if_neg hcase]
    dsimp only
    split <;> split <;> split
    all_goals
      first
      | exact fun x hx =>
          ((List.take_sublist _ _).trans (List.drop_sublist _ _)).subset hx
      | exact fun x hx => (List.drop_sublist _ _).subset hx

lemma searchAccum_eq_filter (st : Store) (now : Int) (query : Str)
    (po : Option ProjectID) (to_ : Option TaskID) :
    searchAccum st now query po to_ =
      (searchScope st now po to_).filter
        (fun a => containsSub (toLowerStr a.content) (toLowerStr query)) := by
  rw [searchAccum.eq_def, searchScope.eq_def]
  dsimp only
  rw [List.filter_flatMap]
  refine List.flatMap_congr ?_
  intro pid _
  dsimp only
  rw [List.filter_flatMap]
  refine List.flatMap_congr ?_
  intro tid _
  cases h : ListArtifacts st pid tid internalScanOpts with
  | ok r => rfl
  | error e => rfl

/-- C1 (amended): search soundness, and completeness relative to the scan
scope — every returned artifact case-insensitively contains the query,
and the accumulated (pre-pagination) result list is exactly the matching
artifacts among those visited by the internal `Limit: 0` scans, each of
which is capped at the 50 newest entries of its collection. -/
theorem C1_search_sound_scope_complete :
    (∀ (st : Store) (now : Int) (q : Str) (po : Option ProjectID)
        (to_ : Option TaskID) (opts : ListOptions),
      ((SearchArtifacts st now q po to_ opts).items).all
        (fun a => containsSub (toLowerStr a.content) (toLowerStr q)) = true) ∧
    (∀ (st : Store) (now : Int) (q : Str) (po : Option ProjectID)
        (to_ : Option TaskID),
      searchAccum st now q po to_ =
        (searchScope st now po to_).filter
          (fun a => containsSub (toLowerStr a.content) (toLowerStr q))) := by
  constructor
  · intro st now q po to_ opts
    rw [List.all_eq_true]
    intro a ha
    have hsub : (SearchArtifacts st now q po to_ opts).items ⊆
        searchAccum st now q po to_ := by
      rw [SearchArtifacts]
      exact applyPagination_items_subset _ _
    have hmem := hsub ha
    rw [searchAccum_eq_filter] at hmem
    exact (List.mem_filter.mp hmem).2
  · exact searchAccum_eq_filter

/-! ## The artifact round-trip claim -/

lemma writeFile_no_collision {files : List ArtifactFile} {g : ArtifactFile}
    (h : files.all (fun f => !(decide (f.name = g.name))) = true) :
    writeFile files g = files ++ [g] := by
  rw [writeFile, if_neg]
  intro hcon
  rcases List.any_eq_true.mp hcon with ⟨x, hx, hxx⟩
  have hall := List.all_eq_true.mp h x hx
  rw [hxx] at hall
  cases hall

lemma endsWith_md (x : Str) : endsWith (x ++ str ".md") (str ".md") = true := by
  rw [endsWith]
  exact List.isSuffixOf_iff_suffix.mpr (List.suffix_append _ _)

lemma parseArtifacts_append_one (pid : ProjectID) (tid : TaskID)
    (F : List ArtifactFile) (a : Artifact) (rec : Artifact)
    (hload : loadArtifact pid tid a.Filename (buildArtifactMarkdown a) = some rec) :
    parseArtifacts pid tid (F ++ [⟨a.Filename, buildArtifactMarkdown a⟩]) =
      parseArtifacts pid tid F ++ [rec] := by
  rw [parseArtifacts, parseArtifacts, List.filter_append, List.filterMap_append]
  congr 1
  have hmd : endsWith a.Filename (str ".md") = true := by
    rw [Artifact.Filename]
    exact endsWith_md _
  rw [List.filter_cons]
  rw [if_pos (by exact hmd)]
  rw [List.filter_nil, List.filterMap_cons]
  rw [hload]
  rfl

/-- C3 (amended): the artifact round trip — saving `a` into a resolvable
task appends exactly one artifact file, and parsing it back (as
re-listing does) recovers `a`'s type and whitespace-trimmed content, the
Unix-seconds-derived id and `createdAt`, and an *empty* metadata map (the
loader never parses frontmatter metadata).  Hypotheses: the frontmatter
field values are newline-free, the type contains no dot, the timestamp is
within `int64` range, and no artifact file of the same name (same type
and second) already exists. -/
theorem C3_artifact_roundtrip (st : Store) (a : Artifact) (now : Int)
    (metaWriteOk : Bool) (dir : TaskDir)
    (hfind : findTaskDir st a.projectId a.taskId = some dir)
    (hnocoll : (dir.artifacts.getD []).all
      (fun f => !(decide (f.name = a.Filename))) = true)
    (hid : noNewline a.id = true) (hpid : noNewline a.projectId = true)
    (htid : noNewline a.taskId = true) (htype : noNewline a.type = true)
    (hmeta : ∀ kv ∈ a.metadata, noNewline kv.1 = true ∧ noNewline kv.2 = true)
    (htnd : '.' ∉ a.type)
    (hts : -(2 ^ 63) ≤ a.createdAt ∧ a.createdAt ≤ 2 ^ 63 - 1) :
    (SaveArtifact st a now true metaWriteOk).1 = none ∧
    ∃ dir', findTaskDir (SaveArtifact st a now true metaWriteOk).2
        a.projectId a.taskId = some dir' ∧
      dir'.artifacts = some ((dir.artifacts.getD []) ++
        [⟨a.Filename, buildArtifactMarkdown a⟩]) ∧
      parseArtifacts a.projectId a.taskId (dir'.artifacts.getD []) =
        parseArtifacts a.projectId a.taskId (dir.artifacts.getD []) ++
          [{ id := intRepr a.createdAt, projectId := a.projectId,
             taskId := a.taskId, type := a.type,
             content := trimSpace a.content, metadata := [],
             createdAt := a.createdAt }] := by
  have hload := loadArtifact_build a.projectId a.taskId a
    hid hpid htid htype hmeta htnd hts
  have hwf : writeFile (dir.artifacts.getD [])
      ⟨a.Filename, buildArtifactMarkdown a⟩ =
      (dir.artifacts.getD []) ++ [⟨a.Filename, buildArtifactMarkdown a⟩] :=
    writeFile_no_collision hnocoll
  simp only [SaveArtifact, hfind]
  rw [if_neg (by simp)]
  cases metaWriteOk
  · rw [if_neg (by simp)]
    refine ⟨rfl, ?_⟩
    dsimp only
    rw [findTaskDir_updateTaskDir _ _ _
        (fun e => { e with artifacts := some (writeFile (e.artifacts.getD [])
          ⟨a.Filename, buildArtifactMarkdown a⟩) }) (fun e => rfl),
      findTaskDir_updateTaskDir _ _ _
        (fun e => { e with artifacts := some (e.artifacts.getD []) })
        (fun e => rfl),
      hfind]
    refine ⟨_, rfl, ?_, ?_⟩
    · dsimp only [Option.map_some']
      rw [Option.getD_some, hwf]
    · dsimp only [Option.map_some']
      rw [Option.getD_some, Option.getD_some, hwf]
      exact parseArtifacts_append_one _ _ _ a _ hload
  · rw [if_pos rfl]
    refine ⟨rfl, ?_⟩
    dsimp only
    rw [findTaskDir_updateTaskDir _ _ _
        (fun e => { e with meta := some { loadTaskMetadataFromDir a.projectId now dir with updatedAt := now } }) (fun e => rfl),
      findTaskDir_updateTaskDir _ _ _
        (fun e => { e with artifacts := some (writeFile (e.artifacts.getD [])
          ⟨a.Filename, buildArtifactMarkdown a⟩) }) (fun e => rfl),
      findTaskDir_updateTaskDir _ _ _
        (fun e => { e with artifacts := some (e.artifacts.getD []) })
        (fun e => rfl),
      hfind]
    refine ⟨_, rfl, ?_, ?_⟩
    · dsimp only [Option.map_some']
      rw [Option.getD_some, hwf]
    · dsimp only [Option.map_some']
      rw [Option.getD_some, Option.getD_some, hwf]
      exact parseArtifacts_append_one _ _ _ a _ hload

/-! ## The internal-scan limit claim -/

lemma applyPagination_length_le50 {α : Type} (l : List α) (opts : ListOptions)
    (h : opts.limit ≤ 0) : (applyPagination l opts).items.length ≤ 50 := by
  unfold applyPagination
  by_cases hcase : (l.length : Int) ≤
      (if opts.offset < 0 then 0 else (opts.offset : Int))
  · rw [if_pos hcase]
    simp
  · rw [if_neg hcase]
    dsimp only
    rw [if_pos h]
    by_cases hmore : decide ((50 : Int) <
        ((l.drop (if opts.offset < 0 then 0
          else (opts.offset : Int)).toNat).length : Int)) = true
    · rw [if_pos hmore]
      simp only [List.length_take]
      omega
    · rw [if_neg hmore]
      have hm : ¬((50 : Int) <
          ((l.drop (if opts.offset < 0 then 0
            else (opts.offset : Int)).toNat).length : Int)) :=
        fun hc => hmore (decide_eq_true hc)
      omega

lemma applyPagination_internalScan {α : Type} (l : List α) :
    (applyPagination l internalScanOpts).items = l.take 50 := by
  unfold applyPagination internalScanOpts
  dsimp only
  have h0 : (if (0 : Int) < 0 then (0 : Int) else 0) = 0 :=
    if_neg (lt_irrefl 0)
  have hlim : (if (0 : Int) ≤ 0 then (50 : Int) else 0) = 50 :=
    if_pos (le_refl 0)
  rw [h0, hlim]
  by_cases hcase : (l.length : Int) ≤ 0
  · rw [if_pos hcase]
    have hnil : l = [] := List.length_eq_zero.mp (by omega)
    rw [hnil]
    rfl
  · rw [if_neg hcase]
    dsimp only
    rw [Int.toNat_zero, List.drop_zero]
    by_cases hmore : decide ((50 : Int) < (l.length : Int)) = true
    · rw [if_pos hmore]
      rfl
    · rw [if_neg hmore]
      have hm : ¬((50 : Int) < (l.length : Int)) :=
        fun hc => hmore (decide_eq_true hc)
      exact (List.take_of_length_le (by omega)).symm

/-- C9: a `Limit` of `0` (or any non-positive limit) is not "no limit":
the pagination helper substitutes the default `50`, so every listing made
with such options returns at most 50 items; the internal full scans,
which pass `ListOptions{Limit: 0}` (`internalScanOpts`), receive exactly
the first 50 entries — for `ListArtifacts` (the scan behind
`GetArtifact`, `DeleteArtifact` and `SearchArtifacts`), the 50 newest
artifacts of the directory. -/
theorem C9_limit_zero_capped :
    (∀ {α : Type} (l : List α) (opts : ListOptions), opts.limit ≤ 0 →
      (applyPagination l opts).items.length ≤ 50) ∧
    (∀ {α : Type} (l : List α),
      (applyPagination l internalScanOpts).items = l.take 50) ∧
    (∀ (st : Store) (pid : ProjectID) (tid : TaskID) (dir : TaskDir)
        (files : List ArtifactFile),
      findTaskDir st pid tid = some dir → dir.artifacts = some files →
      ListArtifacts st pid tid internalScanOpts = .ok
        (applyPagination (sortByDesc Artifact.createdAt
          (parseArtifacts pid tid files)) internalScanOpts) ∧
      (applyPagination (sortByDesc Artifact.createdAt
          (parseArtifacts pid tid files)) internalScanOpts).items =
        (sortByDesc Artifact.createdAt (parseArtifacts pid tid files)).take
          50) := by
  refine ⟨?_, ?_, ?_⟩
  · intro α l opts h
    exact applyPagination_length_le50 l opts h
  · intro α l
    exact applyPagination_internalScan l
  · intro st pid tid dir files h1 h2
    constructor
    · simp only [ListArtifacts, h1, h2]
    · exact applyPagination_internalScan _

/-! ## Concrete demonstration data

A small store exercising the claims: one project `demo` with one open
task `bug-1` holding two artifacts, plus a larger variant whose task
holds 51 one-character artifacts. -/

set_option maxRecDepth 1000000

def tDemo : Task :=
  { id := str "bug-1", projectId := str "demo", name := str "Bug 1",
    description := [], status := TaskStatusOpen, workspacePath := [],
    metadata := [], createdAt := 5, updatedAt := 5 }

def tdDemo : TaskDir :=
  { name := str "[open]-bug-1", meta := some tDemo,
    artifacts := some [⟨str "note.1.md", str "a"⟩, ⟨str "note.2.md", str "b"⟩] }

def pdDemo : ProjectDir := { name := str "demo", meta := none, tasks := [tdDemo] }

def stDemo : Store := { projects := [pdDemo] }

def aNew : Artifact :=
  { id := str "3", projectId := str "demo", taskId := str "bug-1",
    type := str "note", content := str "c", metadata := [], createdAt := 3 }

/-- An artifact carrying frontmatter metadata, for the round-trip claim. -/
def aMeta : Artifact :=
  { id := str "4", projectId := str "demo", taskId := str "bug-1",
    type := str "ref", content := str "c",
    metadata := [(str "k", str "v")], createdAt := 4 }

/-- 51 artifact files `note.1.md` … `note.51.md`, every content `"x"`. -/
def files51 : List ArtifactFile :=
  (List.range 51).map
    (fun i => ⟨str "note." ++ natRepr (i + 1) ++ str ".md", str "x"⟩)

def tdBig : TaskDir :=
  { name := str "[open]-bug-1", meta := some tDemo, artifacts := some files51 }

def pdBig : ProjectDir := { name := str "demo", meta := none, tasks := [tdBig] }

def stBig : Store := { projects := [pdBig] }

/-- The oldest of the 51 stored artifacts, as parsing reconstructs it. -/
def aOld : Artifact :=
  { id := str "1", projectId := str "demo", taskId := str "bug-1",
    type := str "note", content := str "x", metadata := [], createdAt := 1 }

/-- C1 counterexample to unrestricted completeness: in a task holding 51
artifacts whose every content matches the query `"x"`, the oldest one is
stored in the searched scope and matches, yet the accumulated
pre-pagination result list misses it (the internal `Limit: 0` artifact
scan keeps only the 50 newest), so it is absent from every search page. -/
theorem C1_scan_cap_counterexample :
    aOld ∈ parseArtifacts (str "demo") (str "bug-1") files51 ∧
    containsSub (toLowerStr aOld.content) (toLowerStr (str "x")) = true ∧
    aOld ∉ searchAccum stBig 9 (str "x")
      (some (str "demo")) (some (str "bug-1")) ∧
    aOld ∉ (SearchArtifacts stBig 9 (str "x")
      (some (str "demo")) (some (str "bug-1")) ⟨200, 0, []⟩).items := by
  decide

/-- C3 counterexample to the metadata clause: saving an artifact whose
metadata map is `{"k": "v"}` succeeds, but the re-listed entry comes back
with *empty* metadata — the loader drops the frontmatter block without
parsing `meta_` keys. -/
theorem C3_metadata_counterexample :
    (SaveArtifact stDemo aMeta 9 true true).1 = none ∧
    ((ListArtifacts (SaveArtifact stDemo aMeta 9 true true).2
        aMeta.projectId aMeta.taskId internalScanOpts).toOption.map
      (fun r => r.items.head?)) =
      some (some { id := str "4", projectId := str "demo", taskId := str "bug-1", type := str "ref", content := str "c", metadata := [], createdAt := 4 }) ∧
    aMeta.metadata = [(str "k", str "v")] := by
  decide

/-- Witness for C3: the amended round trip at the concrete store. -/
theorem C3_roundtrip_witness :
    (SaveArtifact stDemo aNew 9 true true).1 = none ∧
    ∃ dir', findTaskDir (SaveArtifact stDemo aNew 9 true true).2
        aNew.projectId aNew.taskId = some dir' ∧
      dir'.artifacts = some ((tdDemo.artifacts.getD []) ++
        [⟨aNew.Filename, buildArtifactMarkdown aNew⟩]) ∧
      parseArtifacts aNew.projectId aNew.taskId (dir'.artifacts.getD []) =
        parseArtifacts aNew.projectId aNew.taskId (tdDemo.artifacts.getD []) ++
          [{ id := intRepr aNew.createdAt, projectId := aNew.projectId,
             taskId := aNew.taskId, type := aNew.type,
             content := trimSpace aNew.content, metadata := [],
             createdAt := aNew.createdAt }] :=
  C3_artifact_roundtrip stDemo aNew 9 true tdDemo (by decide) (by decide)
    (by decide) (by decide) (by decide) (by decide) (by decide) (by decide)
    (by decide)

/-- Witness for C4: renaming `bug-1` from `open` to `completed`. -/
theorem C4_status_rename_witness :
    (UpdateTask stDemo { tDemo with status := TaskStatusCompleted }
      7 true true).1 = none ∧
    GetTask (UpdateTask stDemo { tDemo with status := TaskStatusCompleted }
        7 true true).2 tDemo.projectId tDemo.id 7 =
      .ok { tDemo with status := TaskStatusCompleted, updatedAt := 7 } :=
  ⟨(C4_status_rename stDemo tDemo 7 TaskStatusOpen TaskStatusCompleted
      pdDemo [] [] tdDemo (by decide) (by decide) (by decide) (by decide)
      (by decide) (by decide) (by decide) (by decide) (by decide)
      (by decide) (by decide)).1,
   (C4_status_rename stDemo tDemo 7 TaskStatusOpen TaskStatusCompleted
      pdDemo [] [] tdDemo (by decide) (by decide) (by decide) (by decide)
      (by decide) (by decide) (by decide) (by decide) (by decide)
      (by decide) (by decide)).2.2⟩

/-- Witness for C6: a failed rename of `bug-1`'s status directory. -/
theorem C6_rename_failure_witness :
    UpdateTask stDemo { tDemo with status := TaskStatusCompleted }
      7 false true = (some Err.StorageFailed, stDemo) :=
  C6_update_rename_failure stDemo
    { tDemo with status := TaskStatusCompleted } 7 true tdDemo
    (by decide) (by decide)

/-- Witness for C8: saving `note.3.md` with a failing metadata rewrite. -/
theorem C8_best_effort_witness :
    (SaveArtifact stDemo aNew 9 true false).1 = none ∧
    ∃ dir', findTaskDir (SaveArtifact stDemo aNew 9 true false).2
        aNew.projectId aNew.taskId = some dir' ∧
      ⟨aNew.Filename, buildArtifactMarkdown aNew⟩ ∈ dir'.artifacts.getD [] :=
  C8_saveArtifact_best_effort stDemo aNew 9 false tdDemo (by decide)

end AgentMemory
